import Mathlib

/-!
Verification of the BOM-COMPARE-GENERATOR core logic

A shallow embedding, in Lean 4, of the core data model and operations of the
BOM generator (files `src/bomgen/random_data.py`, `src/bomgen/ui.py`,
`src/bomgen/cli.py`, `src/bomgen/models.py`), together with theorems settling
the specification claims about them.

Conventions of the embedding:
* Python scalar cell values (which may be `None`, a string, an int, or a
  float) are modelled by the inductive type `Value`; floats produced by the
  program are modelled as rationals (the program never relies on rounding
  behaviour in any verified property).
* A Python row dict is modelled by the structure `Row` holding the columns
  that the verified logic ever reads; columns that no verified code path
  inspects (e.g. `Memo1`, `Tag`) are omitted from the structure, which is
  sound because no embedded function reads them.
* The module-global part-number counter of `random_data.py` is threaded
  explicitly: each stateful function takes the counter and returns the new
  counter.
* Python decimal formatting (`str(n)`, `f"{n:03d}"`, `str(n).zfill(6)`) is
  modelled by an explicit decimal renderer over `List Char`.
-/

namespace BomGen

/-- A Python scalar cell value: `None`, a string, an int, or a float
(modelled as a rational). -/
inductive Value where
  | vnone : Value
  | vstr  : String → Value
  | vnat  : Nat → Value
  | vrat  : ℚ → Value
deriving DecidableEq

/-- Python truthiness of a cell value (`bool(v)`). -/
def Value.truthy : Value → Bool
  | .vnone  => false
  | .vstr s => decide (s ≠ "")
  | .vnat n => decide (n ≠ 0)
  | .vrat q => decide (q ≠ 0)

/-- Python `val in (None, "", [])` — the blank test used by the required-field
validation (`ui.py` line 625/711 and `cli.py` `is_missing`).  Numbers are never
blank (`0 in (None, "", [])` is `False` in Python). -/
def Value.isBlank : Value → Bool
  | .vnone  => true
  | .vstr s => decide (s = "")
  | .vnat _ => false
  | .vrat _ => false

/-- Python `str(v)` as applied to cell values by `clear_self_parent` and
f-string interpolation. -/
def Value.pyStr : Value → String
  | .vnone  => "None"
  | .vstr s => s
  | .vnat n => toString n
  | .vrat q => toString q

/-- The columns of a part row that the verified logic reads.  A Python row
dict maps all 27 template columns to values; the remaining columns are never
inspected by any embedded operation. -/
structure Row where
  partNo      : Value := .vnone
  revision    : Value := .vnone
  description : Value := .vnone
  quantity    : Value := .vnone
  source      : Value := .vnone
  level       : Value := .vnone
  location    : Value := .vnone
  parent      : Value := .vnone
  sequence    : Value := .vnone
  category    : Value := .vnone
deriving DecidableEq

/-- `row.get(f)` for the field names the verified code looks up. -/
def Row.get (r : Row) : String → Value
  | "PartNo"      => r.partNo
  | "Revision"    => r.revision
  | "Description" => r.description
  | "Quantity"    => r.quantity
  | "Source"      => r.source
  | "Level"       => r.level
  | "Location"    => r.location
  | "Parent"      => r.parent
  | "Sequence"    => r.sequence
  | "Category"    => r.category
  | _             => .vnone

/-- `REQUIRED_FIELDS` from `cli.py` line 23. -/
def REQUIRED_FIELDS : List String := ["PartNo", "Quantity", "Parent", "Sequence"]

/-! ## Decimal rendering

Python `str(n)` for a nonnegative integer renders the decimal digits of `n`,
most significant first.  `f"{n:03d}"` (and `str(n).zfill(6)`) additionally
left-pad with `'0'` to the given width. -/

/-- The character of a single decimal digit. -/
def digitChar (d : Nat) : Char := Char.ofNat (48 + d)

/-- Decimal digit computation, structurally recursive on a fuel argument so
that the kernel can evaluate it; fuel `n + 1` always suffices because
`n / 10 < n` for `n ≥ 10`. -/
def decCharsAux : Nat → Nat → List Char
  | 0, _ => []
  | fuel + 1, n =>
    if n < 10 then [digitChar n]
    else decCharsAux fuel (n / 10) ++ [digitChar (n % 10)]

/-- Decimal digits of `n`, most significant first (Python `str(n)` for
`n ≥ 0`). -/
def decChars (n : Nat) : List Char := decCharsAux (n + 1) n

/-- Decimal digits of `n` left-padded with `'0'` to width `w`
(Python `f"{n:0wd}"` / `str(n).zfill(w)`). -/
def padTo (w : Nat) (n : Nat) : List Char :=
  List.replicate (w - (decChars n).length) '0' ++ decChars n

/-! ## Short-form part number allocator (`random_data.py` lines 11-37)

The module-global `_part_number_counter` is threaded explicitly.  After
`reset_part_number_counter()` the counter is `0`. -/

/-- `chr(65 + n)`. -/
def letterChar (n : Nat) : Char := Char.ofNat (65 + n)

/-- `_prefix_from_index` (`random_data.py` lines 21-27), as a character
list: `0 -> "A"`, ..., `25 -> "Z"`, `26 -> "AA"`, `27 -> "AB"`, ... -/
def prefixChars (i : Nat) : List Char :=
  if i < 26 then [letterChar i]
  else [letterChar ((i - 26) / 26), letterChar ((i - 26) % 26)]

/-- `_prefix_from_index` as a string. -/
def prefixFromIndex (i : Nat) : String := String.mk (prefixChars i)

/-- The string produced by `get_next_partno` (`random_data.py` lines 30-37)
when the global counter holds `counter`: prefix from `counter // 1000`, then
`(counter % 1000) + 1` zero-padded to width 3. -/
def getNextPartnoStr (counter : Nat) : String :=
  String.mk (prefixChars (counter / 1000) ++ padTo 3 (counter % 1000 + 1))

/-- `get_next_partno`: returns the produced part number and the incremented
global counter. -/
def getNextPartno (counter : Nat) : String × Nat :=
  (getNextPartnoStr counter, counter + 1)

/-- The sequence of part numbers produced by `n` successive calls of
`get_next_partno` starting from counter value `c`. -/
def allocCalls : Nat → Nat → List String
  | 0, _ => []
  | n + 1, c => (getNextPartno c).1 :: allocCalls n (getNextPartno c).2

/-- The part number yielded by the `k`-th call (1-indexed) of
`get_next_partno` after `reset_part_number_counter()`. -/
def nthPartno (k : Nat) : String := getNextPartnoStr (k - 1)

/-! ## Long-form part number allocator (`random_data.py` lines 40-51) -/

/-- `str(n).zfill(6)`. -/
def zfill6 (n : Nat) : List Char := padTo 6 n

/-- The string produced by `get_next_partno_long` when the global counter
holds `counter`.  The random draws are oracle arguments: `length` is the
result of `random.randint(20, 50)` and `suffix i` is the `i`-th randomly
chosen suffix character. -/
def getNextPartnoLongStr (counter length : Nat) (suffix : Nat → Char) : String :=
  let pfx := 'P' :: zfill6 counter
  if length ≤ pfx.length then String.mk (pfx.take length)
  else String.mk (pfx ++ (List.range (length - pfx.length)).map suffix)

/-- Oracle for the random draws made by `get_next_partno_long`: the drawn
length (with the `randint(20, 50)` bounds) and suffix characters, per counter
value. -/
structure LongRand where
  length : Nat → Nat
  suffix : Nat → Nat → Char
  length_ge : ∀ c, 20 ≤ length c
  length_le : ∀ c, length c ≤ 50

/-! ## The collision-retry loop of `random_row_for_child`
(`random_data.py` lines 81-84) -/

/-- The `while partno == parent_partno` retry loop: allocate, and re-allocate
while the result equals the parent part number.  Two consecutive allocator
outputs are never equal (`getNextPartnoStr_succ_ne`,
`getNextPartnoLongStr_succ_ne`), so the loop body runs at most once and the
model unrolls it to a single conditional retry. -/
def pickPartno (useLong : Bool) (lr : LongRand) (parent : String) (c : Nat) : String × Nat :=
  let first := if useLong then getNextPartnoLongStr c (lr.length c) (lr.suffix c)
               else getNextPartnoStr c
  if first = parent then
    (if useLong then getNextPartnoLongStr (c + 1) (lr.length (c + 1)) (lr.suffix (c + 1))
     else getNextPartnoStr (c + 1), c + 2)
  else (first, c + 1)

/-! ## Random row generation (`random_data.py` lines 65-156) -/

/-- The set `all_fields` of `random_row_for_child` (`random_data.py`
lines 73-78). -/
def ALL_FIELDS : List String :=
  ["PartNo", "Revision", "Description", "AltDescription1", "AltDescription2", "DescExtra",
   "Quantity", "IssueUM", "ConsumptionConv", "UM", "Cost", "Source", "Drawing", "Leadtime",
   "Level", "Location", "Memo1", "Memo2", "Parent", "Productline", "Sequence", "SortCode",
   "Tag", "Category", "BomComplete", "BomComments", "Router"]

/-- `fields = fields_to_populate if fields_to_populate else all_fields`: a
`None` or empty set falls back to all fields. -/
def resolveFields (fo : Option (List String)) : List String :=
  match fo with
  | none => ALL_FIELDS
  | some l => if l = [] then ALL_FIELDS else l

/-- Oracle for the random draws made for one row by `random_row_for_child`
(the drawn `Revision`, `Quantity`, `Source`, `Location` and `Category`
values; the drawn columns that the verified logic never reads are not
modelled). -/
structure RowRand where
  revision : Value
  quantity : Value
  source   : Value
  location : Value
  category : Value

/-- `random_row_for_child` (`random_data.py` lines 65-142): allocate a part
number different from the parent, then populate exactly the selected fields.
Returns the row and the new allocator counter. -/
def randomRowForChild (parent : String) (seq : Nat) (level : Nat)
    (fields : List String) (useLong : Bool) (lr : LongRand) (rr : RowRand)
    (c : Nat) : Row × Nat :=
  ({ partNo      := if "PartNo" ∈ fields then .vstr (pickPartno useLong lr parent c).1
                    else .vnone
     revision    := if "Revision" ∈ fields then rr.revision else .vnone
     description := if "Description" ∈ fields then
                      .vstr ((pickPartno useLong lr parent c).1 ++ " Desc")
                    else .vnone
     quantity    := if "Quantity" ∈ fields then rr.quantity else .vnone
     source      := if "Source" ∈ fields then rr.source else .vnone
     level       := if "Level" ∈ fields then .vnat level else .vnone
     location    := if "Location" ∈ fields then rr.location else .vnone
     parent      := if "Parent" ∈ fields then .vstr parent else .vnone
     sequence    := if "Sequence" ∈ fields then
                      .vnat (if 0 < seq then seq * 100 else 100)
                    else .vnone
     category    := if "Category" ∈ fields then rr.category else .vnone },
   (pickPartno useLong lr parent c).2)

/-- Helper for `random_child_rows`: builds the rows for loop indices
`i, i+1, ...` threading the allocator counter. -/
def randomChildRowsAux (parent : String) (fo : Option (List String)) (level : Nat)
    (useLong : Bool) (lr : LongRand) (rand : Nat → RowRand) :
    Nat → Nat → Nat → List Row × Nat
  | 0, _, c => ([], c)
  | n + 1, i, c =>
    let p := randomRowForChild parent (i + 1) level (resolveFields fo) useLong lr (rand i) c
    let rest := randomChildRowsAux parent fo level useLong lr rand n (i + 1) p.2
    (p.1 :: rest.1, rest.2)

/-- `random_child_rows` (`random_data.py` lines 145-156): one row per
`i in range(count)` with `sequence = i + 1`. -/
def randomChildRows (parent : String) (count : Nat) (fo : Option (List String))
    (level : Nat) (useLong : Bool) (lr : LongRand) (rand : Nat → RowRand)
    (c : Nat) : List Row × Nat :=
  randomChildRowsAux parent fo level useLong lr rand count 0 c

/-- Sample long-form randomness oracle, for concrete evaluation. -/
def lrSample : LongRand where
  length := fun _ => 20
  suffix := fun _ _ => 'A'
  length_ge := fun _ => by norm_num
  length_le := fun _ => by norm_num

/-- Sample per-row randomness oracle, for concrete evaluation. -/
def rowRandSample : Nat → RowRand := fun _ =>
  { revision := .vnone, quantity := .vnone, source := .vnone,
    location := .vnone, category := .vnone }

/-- Sample row value: the first row `random_child_rows("TOP", 2, ...)`
produces with the sample oracles. -/
def rowSample : Row :=
  { partNo := .vstr "A001", parent := .vstr "TOP", sequence := .vnat 100 }

/-! ## Category/Source validation (`ui.py` lines 102-112) -/

/-- Error message for a Phantom category with a non-manufactured source. -/
def phantomMsg (label : String) : String :=
  label ++ ": Phantom must have Source of Manufactured to Stock (M) or Manufactured to Job (F)."

/-- Error message for an Exclude category with a source other than
Purchase to Stock. -/
def excludeMsg (label : String) : String :=
  label ++ ": Exclude must have Source of Purchase to Stock (P)."

/-- `_validate_category_source` (`ui.py` lines 102-112): `None` when the
combination is valid, otherwise the error message.  A falsy category (blank or
`None`) imposes no constraint; the two checks run in sequence (a category
value can never equal both `"P"` and `"X"`). -/
def validateCategorySource (category source : Value) (label : String) : Option String :=
  if category.truthy = false then none
  else if category = .vstr "P" ∧ ¬(source = .vstr "M" ∨ source = .vstr "F") then
    some (phantomMsg label)
  else if category = .vstr "X" ∧ source ≠ .vstr "P" then
    some (excludeMsg label)
  else none

/-! ## Required-field checks (`ui.py` lines 625 and 711, `cli.py` lines 35-40) -/

/-- The required fields whose value is blank (`child.get(f) in (None, "", [])`),
as tested by the validation pass in `ui.py`. -/
def requiredMissing (r : Row) : List String :=
  REQUIRED_FIELDS.filter (fun f => (r.get f).isBlank)

/-- `is_missing` inside `append_row_by_headers` (`cli.py` lines 35-39): like
the blank test, but an empty-string `Parent` is allowed. -/
def isMissingForAppend (r : Row) (f : String) : Bool :=
  if f = "Parent" ∧ r.get f = .vstr "" then false else (r.get f).isBlank

/-- The missing-field list computed by `append_row_by_headers`. -/
def appendMissing (r : Row) : List String :=
  REQUIRED_FIELDS.filter (fun f => isMissingForAppend r f)

/-- `append_row_by_headers` (`cli.py` lines 32-46): raises `ValueError` naming
the missing fields, otherwise appends the row to the sheet.  The model returns
the appended row; writing by header order drops no modelled column. -/
def appendRowByHeaders (r : Row) : Except (List String) Row :=
  if appendMissing r = [] then .ok r else .error (appendMissing r)

/-! ## Self-parent clearing and the output write (`ui.py` lines 744-764) -/

/-- Python `str.strip()`: remove leading and trailing whitespace. -/
def pyStrip (s : String) : String :=
  String.mk (((s.data.dropWhile Char.isWhitespace).reverse.dropWhile
    Char.isWhitespace).reverse)

/-- `clear_self_parent` (`ui.py` lines 754-758): when `PartNo` and `Parent`
are both truthy and equal after `str(...).strip()`, the `Parent` cell is
rewritten to the empty string. -/
def clear_self_parent (row : Row) : Row :=
  if row.partNo.truthy = true ∧ row.parent.truthy = true ∧
     pyStrip row.partNo.pyStr = pyStrip row.parent.pyStr then
    { row with parent := .vstr "" }
  else row

/-- The top-row write maps a `None` cell to `""` (`ui.py` line 751). -/
def Value.blankIfNone : Value → Value
  | .vnone => .vstr ""
  | v => v

/-- The Level-0 row as written (`ui.py` lines 745-752): the `Parent` column
receives the top-level part number itself, every other cell is the parent form
value with `None` written as `""`. -/
def writtenTopRow (parent_partno : String) (r : Row) : Row :=
  { partNo      := r.partNo.blankIfNone
    revision    := r.revision.blankIfNone
    description := r.description.blankIfNone
    quantity    := r.quantity.blankIfNone
    source      := r.source.blankIfNone
    level       := r.level.blankIfNone
    location    := r.location.blankIfNone
    parent      := .vstr parent_partno
    sequence    := r.sequence.blankIfNone
    category    := r.category.blankIfNone }

/-- The append loops of `ui.py` lines 759-764: each row goes through
`clear_self_parent` and then `append_row_by_headers`; the first `ValueError`
aborts the write. -/
def appendAllRows : List Row → Except (List String) (List Row)
  | [] => .ok []
  | r :: rs => do
    let r' ← appendRowByHeaders (clear_self_parent r)
    let rest ← appendAllRows rs
    pure (r' :: rest)

/-- The output write (`ui.py` lines 744-764): append the Level-0 row without
any check, then every Level 1/2/3 row via `appendAllRows`. -/
def writeOutput (parent_partno : String) (parent_row : Row) (rows : List Row) :
    Except (List String) (List Row) := do
  let rest ← appendAllRows rows
  pure (writtenTopRow parent_partno parent_row :: rest)

/-! ## Sequence reassignment (`ui.py` lines 703-709) -/

/-- `for idx, r in enumerate(rows): r["Sequence"] = (idx+1) * sequence_increment`,
starting the enumeration at `i`. -/
def assignSequencesFrom (inc : Nat) : Nat → List Row → List Row
  | _, [] => []
  | i, r :: rs =>
    { r with sequence := .vnat ((i + 1) * inc) } :: assignSequencesFrom inc (i + 1) rs

/-- The per-level sequence reassignment applied to `child_data`,
`level2_rows` and `level3_rows`. -/
def assignSequences (inc : Nat) (rows : List Row) : List Row :=
  assignSequencesFrom inc 0 rows

/-! ## The Generate-click pipeline (`ui.py` lines 616-764) -/

/-- Parent-part validation (`ui.py` lines 618-623). -/
def parentErrors (parentRow : Option Row) : List String :=
  match parentRow with
  | none => ["Parent part (PartNo and Description) is required."]
  | some pr => (validateCategorySource pr.category pr.source "Parent part").toList

/-- Validation of one Level-1 row (`ui.py` lines 624-631): the missing-field
check first, the category/source check only when nothing is missing. -/
def level1RowErrors (idx : Nat) (r : Row) : List String :=
  if requiredMissing r ≠ [] then
    ["Level 1 part #" ++ toString idx ++ ": Missing " ++
      String.intercalate ", " (requiredMissing r)]
  else
    (validateCategorySource r.category r.source
      ("Level 1 part #" ++ toString idx ++ " (" ++ r.partNo.pyStr ++ ")")).toList

/-- `for idx, child in enumerate(child_data, 1)` starting at `i`. -/
def level1ErrorsFrom (i : Nat) : List Row → List String
  | [] => []
  | r :: rs => level1RowErrors i r ++ level1ErrorsFrom (i + 1) rs

/-- All Level-1 validation errors, in row order. -/
def level1Errors (children : List Row) : List String := level1ErrorsFrom 1 children

/-- Validation of one Level-2/3 row (`ui.py` lines 710-717). -/
def level23RowErrors (r : Row) : List String :=
  if requiredMissing r ≠ [] then
    ["Part " ++ r.partNo.pyStr ++ ": Missing " ++
      String.intercalate ", " (requiredMissing r)]
  else
    (validateCategorySource r.category r.source ("Part " ++ r.partNo.pyStr)).toList

/-- All Level-2/3 validation errors, in row order. -/
def level23Errors (rows : List Row) : List String :=
  (rows.map level23RowErrors).flatten

/-- The parent-wide Revision/Location overrides (`ui.py` lines 719-734);
`parent_revision or None` maps an empty form value to `None`. -/
def applyOverrides (applyRev applyLoc : Bool) (parentRevision parentLocation : String)
    (r : Row) : Row :=
  let r1 := if applyRev then
    { r with revision := if parentRevision = "" then .vnone else .vstr parentRevision }
  else r
  if applyLoc then
    { r1 with location := if parentLocation = "" then .vnone else .vstr parentLocation }
  else r1

/-- Result of a Generate click: the accumulated error list and, when it is
empty, the written output rows. -/
structure GenerateResult where
  errors : List String
  output : Option (List Row)
deriving DecidableEq

/-- The Generate-click pipeline (`ui.py` lines 616-764): validate the parent
and Level-1 rows; only when clean, reassign sequence numbers per level,
validate the assembled Level-2/3 rows, apply the Revision/Location overrides,
and — only when the accumulated error list is empty — write the output.  The
assembled `level2Rows`/`level3Rows` (built from the group configurations in
the clean case) are taken as inputs. -/
def generateBOM (parent_partno : String) (parentRow : Option Row)
    (children level2Rows level3Rows : List Row) (inc : Nat)
    (applyRev applyLoc : Bool) (parentRevision parentLocation : String) :
    GenerateResult :=
  let e1 := parentErrors parentRow ++ level1Errors children
  if e1 ≠ [] then { errors := e1, output := none }
  else
    let c2 := assignSequences inc children
    let l2 := assignSequences inc level2Rows
    let l3 := assignSequences inc level3Rows
    let e2 := e1 ++ level23Errors (l2 ++ l3)
    if e2 ≠ [] then { errors := e2, output := none }
    else
      match parentRow with
      | none => { errors := e2, output := none }
      | some pr =>
        match writeOutput parent_partno pr
            ((c2 ++ l2 ++ l3).map (applyOverrides applyRev applyLoc parentRevision parentLocation)) with
        | .ok out => { errors := [], output := some out }
        | .error _ => { errors := [], output := none }

/-- Sample row for concrete evaluation: a valid Phantom row. -/
def rowPhantomSample : Row :=
  { partNo := .vstr "A1", quantity := .vnat 1, parent := .vstr "T",
    sequence := .vnat 100, category := .vstr "P", source := .vstr "M" }

/-- Sample Level-0 form row. -/
def topRowSample : Row :=
  { partNo := .vstr "TOP", description := .vstr "Top part", quantity := .vnat 1,
    sequence := .vnat 0, level := .vnat 0, parent := .vnone }

/-- Sample child row whose `PartNo` equals its `Parent`. -/
def selfParentRowSample : Row :=
  { partNo := .vstr "C1", quantity := .vnat 1, parent := .vstr "C1",
    sequence := .vnat 100 }

/-- The written output for the two sample rows. -/
def outSample : List Row :=
  [writtenTopRow "TOP" topRowSample, { selfParentRowSample with parent := .vstr "" }]

/-- Sample non-top row with an empty `Parent`, accepted by the writer. -/
def emptyParentRowSample : Row :=
  { partNo := .vstr "C1", quantity := .vnat 1, parent := .vstr "",
    sequence := .vnat 100 }

/-- Sample Level-1 row missing its `PartNo`. -/
def badRowSample : Row :=
  { quantity := .vnat 1, parent := .vstr "TOP", sequence := .vnat 1 }

/-! ## Level-2/3 gating (`ui.py` lines 382-405 and 493-553) -/

/-- `level1_partnos` (`ui.py` line 382): the truthy `PartNo` values of the
Level-1 rows. -/
def level1Partnos (child_data : List Row) : List Value :=
  (child_data.filter (fun c => c.partNo.truthy)).map (fun c => c.partNo)

/-- `next((c.get("Source") for c in child_data if c.get("PartNo") == pno), None)`
(`ui.py` line 385): the `Source` of the first Level-1 row with the given
`PartNo`. -/
def firstSourceFor (child_data : List Row) (pno : Value) : Value :=
  match child_data.find? (fun c => decide (c.partNo = pno)) with
  | some c => c.source
  | none => .vnone

/-- `level1_partnos_manufactured` (`ui.py` line 385): only part numbers whose
first-matching row has a Manufactured source. -/
def level1PartnosManufactured (cd : List Row) : List Value :=
  (level1Partnos cd).filter
    (fun pno => decide (firstSourceFor cd pno = .vstr "M"
      ∨ firstSourceFor cd pno = .vstr "F"))

/-- `any_l1_manufactured` (`ui.py` line 393). -/
def anyL1Manufactured (cd : List Row) : Bool :=
  cd.any (fun c => c.partNo.truthy
    && decide (c.source = .vstr "M" ∨ c.source = .vstr "F"))

/-- `block_l2` (`ui.py` line 394). -/
def blockL2 (cd : List Row) : Bool :=
  !(level1Partnos cd).isEmpty && !anyL1Manufactured cd

/-- Outcome of rendering a Level-2 or Level-3 section: the warnings shown and
the parent chosen for each group. -/
structure LevelSection where
  warnings : List String
  groupParents : List (Option Value)
deriving DecidableEq

/-- The blocking warning of `ui.py` lines 401-404. -/
def l2Warning : String :=
  "No Level 1 part has a Manufactured Source. At least one part must be Manufactured to Stock or Manufactured to Job to use as a parent for Level 2 Sub-Components. Change the Source of a part above to a Manufactured option."

/-- The blocking warning of `ui.py` lines 517-520. -/
def l3Warning : String :=
  "No Level 2 part has a Manufactured Source. At least one part must be Manufactured to Stock or Manufactured to Job to use as a parent for Level 3 Sub-Components. Change the Source of a part in the Level 2 section above to a Manufactured option."

/-- Parent selection for one group: both the round-robin of
`ui.py` line 425 (`manufactured[g % len(manufactured)]`) and the select box of
line 430 (an index into the manufactured list) pick an element of the
manufactured list; with an empty list the select box yields `None`. -/
def pickParent (mfg : List Value) (choice : Nat) : Option Value :=
  mfg.get? (choice % mfg.length)

/-- The Level-2 section (`ui.py` lines 387-491): not rendered without Level-1
part numbers; blocked with a warning and zero groups when no Level-1 part is
Manufactured; otherwise up to 20 groups whose parents come from the
manufactured list. -/
def l2Section (cd : List Row) (numRequested : Nat) (choices : Nat → Nat) :
    LevelSection :=
  if (level1Partnos cd).isEmpty then { warnings := [], groupParents := [] }
  else if blockL2 cd then { warnings := [l2Warning], groupParents := [] }
  else { warnings := [],
         groupParents := (List.range (min numRequested 20)).map
           (fun g => pickParent (level1PartnosManufactured cd) (choices g)) }

/-- `level2_partnos_for_l3` (`ui.py` lines 444, 493): the truthy `PartNo`
values of the manual Level-2 rows, in entry order. -/
def level2PartnosForL3 (l2Manual : List Row) : List Value :=
  (l2Manual.filter (fun r => r.partNo.truthy)).map (fun r => r.partNo)

/-- `level2_partno_to_source.get(pno)` (`ui.py` lines 496-501): a dict built
row by row, so the last manual Level-2 row with a given truthy `PartNo`
wins. -/
def l2SourceFor (l2Manual : List Row) (pno : Value) : Value :=
  match (l2Manual.filter
      (fun r => r.partNo.truthy && decide (r.partNo = pno))).getLast? with
  | some r => r.source
  | none => .vnone

/-- `any_l2_manufactured` (`ui.py` line 504). -/
def anyL2Manufactured (l2Manual : List Row) : Bool :=
  (level2PartnosForL3 l2Manual).any
    (fun pno => decide (l2SourceFor l2Manual pno = .vstr "M"
      ∨ l2SourceFor l2Manual pno = .vstr "F"))

/-- `block_l3` (`ui.py` line 505). -/
def blockL3 (l2Manual : List Row) : Bool :=
  !(level2PartnosForL3 l2Manual).isEmpty && !anyL2Manufactured l2Manual

/-- `level2_partnos_manufactured` (`ui.py` line 507). -/
def level2PartnosManufactured (l2Manual : List Row) : List Value :=
  (level2PartnosForL3 l2Manual).filter
    (fun pno => decide (l2SourceFor l2Manual pno = .vstr "M"
      ∨ l2SourceFor l2Manual pno = .vstr "F"))

/-- The Level-3 section (`ui.py` lines 509-613), mirroring the Level-2 one
with Level-2 manual rows as parent candidates. -/
def l3Section (cd l2Manual : List Row) (numRequested : Nat)
    (choices : Nat → Nat) : LevelSection :=
  if (level1Partnos cd).isEmpty then { warnings := [], groupParents := [] }
  else if blockL3 l2Manual then { warnings := [l3Warning], groupParents := [] }
  else { warnings := [],
         groupParents := (List.range (min numRequested 20)).map
           (fun g => pickParent (level2PartnosManufactured l2Manual) (choices g)) }

/-- Sample non-manufactured Level-1 row. -/
def rowPurchSample : Row :=
  { partNo := .vstr "L1", quantity := .vnat 1, parent := .vstr "TOP",
    sequence := .vnat 100, source := .vstr "P" }

/-! ## The BOM diff engine (`models.py`) -/

/-- `BOMItem` (`models.py` lines 8-20); the float quantity is modelled as a
rational. -/
structure BOMItem where
  part_number : String
  description : String
  quantity : ℚ
  unit : String := "EA"
  reference_designator : Option String := none
  notes : Option String := none
deriving DecidableEq

/-- Python dict assignment `d[k] = v` on a dict represented as its ordered
key/value pair list: replace in place when the key exists, append
otherwise. -/
def dictInsert (d : List (String × BOMItem)) (k : String) (v : BOMItem) :
    List (String × BOMItem) :=
  if d.any (fun p => decide (p.1 = k)) then
    d.map (fun p => if p.1 = k then (k, v) else p)
  else d ++ [(k, v)]

/-- `{item.part_number: item for item in items}` (`models.py` lines 70-71):
last write wins on duplicate part numbers. -/
def bomDict (items : List BOMItem) : List (String × BOMItem) :=
  items.foldl (fun d it => dictInsert d it.part_number it) []

/-- Dict lookup on the pair-list representation. -/
def dictFind (d : List (String × BOMItem)) (k : String) : Option BOMItem :=
  (d.find? (fun p => decide (p.1 = k))).map Prod.snd

/-- The last item of `items` with the given part number — what a Python dict
lookup returns after last-write-wins insertion. -/
def lastByKey (items : List BOMItem) (pn : String) : Option BOMItem :=
  items.reverse.find? (fun it => decide (it.part_number = pn))

/-- A part number occurs among the items. -/
def occursIn (items : List BOMItem) (pn : String) : Bool :=
  items.any (fun it => decide (it.part_number = pn))

/-- The modification test of `_calculate_differences` (`models.py`
lines 93-95): quantity, description, or unit differs — exact comparison. -/
def itemDiffers (i1 i2 : BOMItem) : Bool :=
  decide (i1.quantity ≠ i2.quantity ∨ i1.description ≠ i2.description
    ∨ i1.unit ≠ i2.unit)

/-- The four partitions computed by `_calculate_differences`. -/
structure BOMComparisonLists where
  added_items : List BOMItem
  removed_items : List BOMItem
  modified_items : List (BOMItem × BOMItem)
  unchanged_items : List BOMItem
deriving DecidableEq

/-- The common-part pairs `(item1, item2)` iterated by the modification loop
of `_calculate_differences` (`models.py` lines 85-98). -/
def commonPairs (bom1 bom2 : List BOMItem) : List (BOMItem × BOMItem) :=
  (bomDict bom1).filterMap
    (fun p => (dictFind (bomDict bom2) p.1).map (fun i2 => (p.2, i2)))

/-- `_calculate_differences` (`models.py` lines 68-98).  Python iterates over
key sets in implementation-defined order and indexes the two dicts; the model
iterates over the dict pair lists themselves, which yields the same
collections because dict keys are unique. -/
def calculateDifferences (bom1 bom2 : List BOMItem) : BOMComparisonLists :=
  { added_items :=
      ((bomDict bom2).filter
        (fun p => !((bomDict bom1).any (fun q => decide (q.1 = p.1))))).map Prod.snd
    removed_items :=
      ((bomDict bom1).filter
        (fun p => !((bomDict bom2).any (fun q => decide (q.1 = p.1))))).map Prod.snd
    modified_items := (commonPairs bom1 bom2).filter (fun q => itemDiffers q.1 q.2)
    unchanged_items :=
      ((commonPairs bom1 bom2).filter (fun q => !itemDiffers q.1 q.2)).map Prod.fst }

/-- `BOMComparison` (`models.py` lines 52-61): the two BOMs (modelled by
their item lists — the diff reads nothing else) and the four caller-supplied
partitions. -/
structure BOMComparison where
  bom1 : List BOMItem
  bom2 : List BOMItem
  added_items : List BOMItem
  removed_items : List BOMItem
  modified_items : List (BOMItem × BOMItem)
  unchanged_items : List BOMItem
deriving DecidableEq

/-- `__post_init__` (`models.py` lines 63-66): recompute the partitions only
when the supplied `added_items`, `removed_items` and `modified_items` are all
empty; the guard never inspects `unchanged_items`. -/
def postInit (c : BOMComparison) : BOMComparison :=
  if c.added_items = [] ∧ c.removed_items = [] ∧ c.modified_items = [] then
    { c with
      added_items := (calculateDifferences c.bom1 c.bom2).added_items
      removed_items := (calculateDifferences c.bom1 c.bom2).removed_items
      modified_items := (calculateDifferences c.bom1 c.bom2).modified_items
      unchanged_items := (calculateDifferences c.bom1 c.bom2).unchanged_items }
  else c

/-- Sample items for the diff-engine witnesses. -/
def itemP1 : BOMItem := { part_number := "P1", description := "A", quantity := 2 }

/-- Sample item present in both BOMs, unmodified. -/
def itemP2 : BOMItem := { part_number := "P2", description := "B", quantity := 5 }

/-- Sample item present only in the second BOM. -/
def itemP3 : BOMItem := { part_number := "P3", description := "C", quantity := 1 }

/-- Sample comparison with a non-empty supplied `added_items` partition and a
non-empty `unchanged_items`. -/
def cmpKeepSample : BOMComparison :=
  { bom1 := [itemP1], bom2 := [itemP2], added_items := [itemP3],
    removed_items := [], modified_items := [], unchanged_items := [itemP2] }

/-- Sample comparison with the three guarded partitions empty but a non-empty
`unchanged_items`. -/
def cmpRecomputeSample : BOMComparison :=
  { bom1 := [itemP1], bom2 := [itemP2], added_items := [],
    removed_items := [], modified_items := [], unchanged_items := [itemP3] }

/-! ## Theorems -/

/-- The fuel argument of `decCharsAux` is irrelevant as long as it exceeds the
rendered number. -/
theorem decCharsAux_eq (f n : Nat) (h : n < f) : decCharsAux f n = decChars n := by
  induction n using Nat.strong_induction_on generalizing f with
  | _ n ih =>
    match f, h with
    | f + 1, h =>
      show decCharsAux (f + 1) n = decCharsAux (n + 1) n
      by_cases h10 : n < 10
      · simp [decCharsAux, h10]
      · have hlt : n / 10 < n := Nat.div_lt_self (by omega) (by omega)
        have e1 : decCharsAux f (n / 10) = decChars (n / 10) := ih (n / 10) hlt f (by omega)
        have e2 : decCharsAux n (n / 10) = decChars (n / 10) := ih (n / 10) hlt n (by omega)
        simp [decCharsAux, h10, e1, e2]

/-! ### Properties of the decimal renderer -/

theorem decChars_of_lt {n : Nat} (h : n < 10) : decChars n = [digitChar n] := by
  simp [decChars, decCharsAux, h]

theorem decChars_of_ge {n : Nat} (h : 10 ≤ n) :
    decChars n = decChars (n / 10) ++ [digitChar (n % 10)] := by
  have : decCharsAux n (n / 10) = decChars (n / 10) :=
    decCharsAux_eq n (n / 10) (Nat.div_lt_self (by omega) (by omega))
  simp [decChars, decCharsAux, Nat.not_lt.mpr h, this]

theorem decChars_ne_nil (n : Nat) : decChars n ≠ [] := by
  by_cases h : n < 10
  · rw [decChars_of_lt h]; simp
  · rw [decChars_of_ge (by omega)]; simp

theorem decChars_length_pos (n : Nat) : 0 < (decChars n).length :=
  List.length_pos.mpr (decChars_ne_nil n)

theorem digitChar_inj : ∀ d, d < 10 → ∀ e, e < 10 → digitChar d = digitChar e → d = e := by
  decide

theorem append_singleton_inj {α : Type _} {xs ys : List α} {a b : α}
    (h : xs ++ [a] = ys ++ [b]) : xs = ys ∧ a = b := by
  have h' := congrArg List.reverse h
  simp only [List.reverse_append, List.reverse_cons, List.reverse_nil,
    List.nil_append, List.cons_append, List.cons.injEq] at h'
  exact ⟨List.reverse_injective h'.2, h'.1⟩

theorem decChars_inj : ∀ m n, decChars m = decChars n → m = n := by
  intro m
  induction m using Nat.strong_induction_on with
  | _ m ih =>
    intro n h
    by_cases hm : m < 10 <;> by_cases hn : n < 10
    · rw [decChars_of_lt hm, decChars_of_lt hn] at h
      exact digitChar_inj m hm n hn (List.cons.inj h).1
    · rw [decChars_of_lt hm, decChars_of_ge (show 10 ≤ n by omega)] at h
      have hl := congrArg List.length h
      have := decChars_length_pos (n / 10)
      simp only [List.length_cons, List.length_nil, List.length_append] at hl
      omega
    · rw [decChars_of_ge (show 10 ≤ m by omega), decChars_of_lt hn] at h
      have hl := congrArg List.length h
      have := decChars_length_pos (m / 10)
      simp only [List.length_cons, List.length_nil, List.length_append] at hl
      omega
    · rw [decChars_of_ge (show 10 ≤ m by omega)] at h
      rw [decChars_of_ge (show 10 ≤ n by omega)] at h
      obtain ⟨h1, h2⟩ := append_singleton_inj h
      have hdiv : m / 10 = n / 10 :=
        ih (m / 10) (Nat.div_lt_self (by omega) (by omega)) (n / 10) h1
      have hmod : m % 10 = n % 10 :=
        digitChar_inj _ (Nat.mod_lt _ (by omega)) _ (Nat.mod_lt _ (by omega)) h2
      omega

theorem decChars_zero : decChars 0 = ['0'] := by decide

theorem digitChar_ne_zero : ∀ n, n < 10 → 0 < n → digitChar n ≠ '0' := by decide

theorem decChars_head_ne_zero :
    ∀ n, 0 < n → ∀ c cs, decChars n = c :: cs → c ≠ '0' := by
  intro n
  induction n using Nat.strong_induction_on with
  | _ n ih =>
    intro hn c cs hd
    by_cases h : n < 10
    · rw [decChars_of_lt h] at hd
      have hc : c = digitChar n := (List.cons.inj hd).1.symm
      subst hc
      exact digitChar_ne_zero n h hn
    · rw [decChars_of_ge (show 10 ≤ n by omega)] at hd
      obtain ⟨x, xs, hd'⟩ : ∃ x xs, decChars (n / 10) = x :: xs := by
        cases hcc : decChars (n / 10) with
        | nil => exact absurd hcc (decChars_ne_nil _)
        | cons y ys => exact ⟨y, ys, rfl⟩
      rw [hd'] at hd
      have hc : c = x := (List.cons.inj hd).1.symm
      rw [hc]
      exact ih (n / 10) (Nat.div_lt_self (by omega) (by omega)) (by omega) x xs hd'

theorem padTo_ne_of_length_lt {w m n : Nat}
    (hlt : (decChars m).length < (decChars n).length) : padTo w m ≠ padTo w n := by
  intro h
  rw [padTo, padTo] at h
  have hl1 : 0 < (decChars m).length := decChars_length_pos m
  have hl2 : 0 < (decChars n).length := decChars_length_pos n
  have hlen := congrArg List.length h
  simp only [List.length_append, List.length_replicate] at hlen
  -- split the longer zero padding at the length of the shorter one
  have hsplit : w - (decChars m).length =
      (w - (decChars n).length) + ((w - (decChars m).length) - (w - (decChars n).length)) := by
    omega
  rw [hsplit, List.replicate_add, List.append_assoc] at h
  have htail := List.append_cancel_left h
  have hk : 1 ≤ (w - (decChars m).length) - (w - (decChars n).length) := by omega
  obtain ⟨k, hkk⟩ : ∃ k, (w - (decChars m).length) - (w - (decChars n).length) = k + 1 :=
    ⟨_, (Nat.succ_pred_eq_of_pos hk).symm⟩
  rw [hkk, List.replicate_succ, List.cons_append] at htail
  have hnpos : 0 < n := by
    rcases Nat.eq_zero_or_pos n with h0 | h0
    · rw [h0, decChars_zero] at hlt
      simp only [List.length_cons, List.length_nil] at hlt
      omega
    · exact h0
  exact decChars_head_ne_zero n hnpos '0'
    (List.replicate k '0' ++ decChars m) htail.symm rfl

theorem padTo_inj {w m n : Nat} (h : padTo w m = padTo w n) : m = n := by
  rcases lt_trichotomy (decChars m).length (decChars n).length with hlt | heq | hgt
  · exact absurd h (padTo_ne_of_length_lt hlt)
  · apply decChars_inj
    have : List.replicate (w - (decChars m).length) '0' ++ decChars m =
        List.replicate (w - (decChars m).length) '0' ++ decChars n := by
      simpa [padTo, heq] using h
    exact List.append_cancel_left this
  · exact absurd h.symm (padTo_ne_of_length_lt hgt)

/-! ### The allocator never repeats on consecutive calls -/

theorem letterChar_inj : ∀ a, a < 26 → ∀ b, b < 26 → letterChar a = letterChar b → a = b := by
  decide

theorem string_mk_inj {l1 l2 : List Char} (h : String.mk l1 = String.mk l2) : l1 = l2 := by
  injection h

theorem getNextPartnoStr_succ_ne (c : Nat) :
    getNextPartnoStr (c + 1) ≠ getNextPartnoStr c := by
  intro h
  unfold getNextPartnoStr at h
  have h' := string_mk_inj h
  by_cases hm : c % 1000 = 999
  · -- the 3-digit block rolls over: the prefix index advances by one
    obtain ⟨i, hi⟩ : ∃ i, c / 1000 = i := ⟨_, rfl⟩
    have hdiv : (c + 1) / 1000 = i + 1 := by omega
    have hmod : (c + 1) % 1000 = 0 := by omega
    rw [hdiv, hmod, hi, hm] at h'
    have hp1 : padTo 3 (0 + 1) = ['0', '0', '1'] := by decide
    have hp2 : padTo 3 (999 + 1) = ['1', '0', '0', '0'] := by decide
    rw [hp1, hp2] at h'
    by_cases hi1 : i + 1 < 26
    · rw [prefixChars, if_pos hi1, prefixChars, if_pos (by omega)] at h'
      simp only [List.cons_append, List.nil_append, List.cons.injEq] at h'
      exact absurd h'.2.1 (by decide)
    · by_cases hi2 : i < 26
      · -- i = 25: "AA001" vs "Z1000"
        have h25 : i = 25 := by omega
        subst h25
        revert h'
        decide
      · -- both prefixes are two letters: the second letters differ
        rw [prefixChars, if_neg (by omega), prefixChars, if_neg (by omega)] at h'
        simp only [List.cons_append, List.nil_append, List.cons.injEq] at h'
        have hsec : letterChar ((i + 1 - 26) % 26) = letterChar ((i - 26) % 26) :=
          h'.2.1
        have := letterChar_inj _ (Nat.mod_lt _ (by omega)) _ (Nat.mod_lt _ (by omega)) hsec
        omega
  · -- same prefix, consecutive padded numbers
    have hdiv : (c + 1) / 1000 = c / 1000 := by omega
    have hmod : (c + 1) % 1000 = c % 1000 + 1 := by omega
    rw [hdiv, hmod] at h'
    have := padTo_inj (List.append_cancel_left h')
    omega

/-! ### Claim C1: values of the short-form allocator -/

theorem prefixChars_zero : prefixChars 0 = ['A'] := by decide

/-- The first 999 calls after reset yield `"A"` followed by the call index
zero-padded to three digits. -/
theorem nthPartno_first999 (k : Nat) (h1 : 1 ≤ k) (h2 : k ≤ 999) :
    nthPartno k = String.mk ('A' :: padTo 3 k) := by
  unfold nthPartno getNextPartnoStr
  have hdiv : (k - 1) / 1000 = 0 := by omega
  have hmod : (k - 1) % 1000 + 1 = k := by omega
  rw [hdiv, hmod, prefixChars_zero]
  rfl

/-- Faithfulness of `nthPartno` to the stateful call sequence: the element at
0-based index `k - 1` of the list of the first `n` allocator outputs after
reset is `nthPartno k`. -/
theorem allocCalls_get (n c i : Nat) (h : i < n) :
    (allocCalls n c).get? i = some (getNextPartnoStr (c + i)) := by
  induction n generalizing c i with
  | zero => omega
  | succ n ih =>
    cases i with
    | zero => simp [allocCalls, getNextPartno]
    | succ i =>
      have := ih (c + 1) i (by omega)
      simpa [allocCalls, getNextPartno, Nat.add_comm, Nat.add_assoc, Nat.add_left_comm] using this

/-- Claim C1 counterexample: after `reset_part_number_counter()`, the 1000th
call of `get_next_partno` yields `"A1000"`, not `"B001"` as claimed, and the
27001st call yields `"AB001"`, not `"AA001"`. -/
theorem claim_C1_counterexample :
    nthPartno 1000 = "A1000" ∧ nthPartno 1000 ≠ "B001"
    ∧ nthPartno 27001 = "AB001" ∧ nthPartno 27001 ≠ "AA001" := by
  refine ⟨by decide, by decide, by decide, by decide⟩

/-- Claim C1 (amended): after `reset_part_number_counter()`, the short-form
allocator yields `"A001"` through `"A999"` on the first 999 calls; each letter
prefix covers 1000 counter values numbered `001` to `1000`, so the 1000th call
yields `"A1000"`, the 1001st yields `"B001"`, the 26001st yields `"AA001"`,
and the 27001st yields `"AB001"` (prefixes advance `A`..`Z` then `AA`, `AB`,
...).  The last two conjuncts tie `nthPartno` to the stateful call sequence
`allocCalls`. -/
theorem claim_C1 :
    (∀ k, 1 ≤ k → k ≤ 999 → nthPartno k = String.mk ('A' :: padTo 3 k))
    ∧ nthPartno 1 = "A001" ∧ nthPartno 999 = "A999"
    ∧ nthPartno 1000 = "A1000"
    ∧ nthPartno 1001 = "B001"
    ∧ nthPartno 26001 = "AA001"
    ∧ nthPartno 27001 = "AB001"
    ∧ (∀ n c i, i < n → (allocCalls n c).get? i = some (getNextPartnoStr (c + i)))
    ∧ (∀ k n, 1 ≤ k → k ≤ n → (allocCalls n 0).get? (k - 1) = some (nthPartno k)) := by
  refine ⟨nthPartno_first999, by decide, by decide, by decide, by decide, by decide,
    by decide, allocCalls_get, ?_⟩
  intro k n h1 h2
  have h := allocCalls_get n 0 (k - 1) (by omega)
  rw [h]
  rw [show (0 : Nat) + (k - 1) = k - 1 by omega]
  rfl

/-- Witness for `claim_C1` at concrete inputs. -/
theorem claim_C1_witness :
    nthPartno 5 = String.mk ('A' :: padTo 3 5)
    ∧ (allocCalls 10 0).get? 4 = some (nthPartno 5) :=
  ⟨claim_C1.1 5 (by decide) (by decide),
   claim_C1.2.2.2.2.2.2.2.2 5 10 (by decide) (by decide)⟩

theorem decChars_length_le : ∀ n k, n < 10 ^ k → 1 ≤ k → (decChars n).length ≤ k := by
  intro n
  induction n using Nat.strong_induction_on with
  | _ n ih =>
    intro k hn hk
    by_cases h : n < 10
    · rw [decChars_of_lt h]
      simpa using hk
    · rw [decChars_of_ge (show 10 ≤ n by omega)]
      have hk2 : 2 ≤ k := by
        by_contra hcon
        have : k = 1 := by omega
        rw [this] at hn
        simp at hn
        omega
      have hdiv : n / 10 < 10 ^ (k - 1) := by
        have h10 : (10 : Nat) ^ k = 10 ^ (k - 1) * 10 := by
          rw [← pow_succ]
          congr 1
          omega
        rw [Nat.div_lt_iff_lt_mul (by omega)]
        omega
      have := ih (n / 10) (Nat.div_lt_self (by omega) (by omega)) (k - 1) hdiv (by omega)
      simp only [List.length_append, List.length_cons, List.length_nil]
      omega

theorem zfill6_length_of_lt {c : Nat} (hc : c < 10 ^ 6) : (zfill6 c).length = 6 := by
  have h1 := decChars_length_le c 6 hc (by omega)
  have h2 := decChars_length_pos c
  simp only [zfill6, padTo, List.length_append, List.length_replicate]
  omega

/-- Two consecutive long-form allocations never produce the same string, for
every pair of random draws, as long as the counter stays below one million
(so that the zero-padded counter prefix is exactly six digits; any single
generation run allocates far fewer part numbers than that). -/
theorem getNextPartnoLongStr_succ_ne (c l1 l2 : Nat) (s1 s2 : Nat → Char)
    (h1 : 20 ≤ l1) (h2 : 20 ≤ l2) (hc : c + 1 < 10 ^ 6) :
    getNextPartnoLongStr (c + 1) l2 s2 ≠ getNextPartnoLongStr c l1 s1 := by
  intro h
  have hlc : (zfill6 c).length = 6 := zfill6_length_of_lt (by omega)
  have hlc1 : (zfill6 (c + 1)).length = 6 := zfill6_length_of_lt (by omega)
  have hp1 : ('P' :: zfill6 c).length = 7 := by simp [hlc]
  have hp2 : ('P' :: zfill6 (c + 1)).length = 7 := by simp [hlc1]
  rw [getNextPartnoLongStr, getNextPartnoLongStr] at h
  simp only [hp1, hp2] at h
  rw [if_neg (by omega), if_neg (by omega)] at h
  have h' := string_mk_inj h
  simp only [List.cons_append, List.cons.injEq] at h'
  have := List.append_inj h'.2 (by rw [hlc, hlc1])
  have := padTo_inj (w := 6) this.1
  omega

theorem pickPartno_counter_le (useLong : Bool) (lr : LongRand) (parent : String) (c : Nat) :
    c + 1 ≤ (pickPartno useLong lr parent c).2 ∧ (pickPartno useLong lr parent c).2 ≤ c + 2 := by
  unfold pickPartno
  dsimp only
  split <;> split <;> simp

theorem pickPartno_ne_parent_short (lr : LongRand) (parent : String) (c : Nat) :
    (pickPartno false lr parent c).1 ≠ parent := by
  unfold pickPartno
  simp only [Bool.false_eq_true, if_false]
  split
  · next heq => rw [← heq]; exact getNextPartnoStr_succ_ne c
  · next hne => exact hne

theorem pickPartno_ne_parent_long (lr : LongRand) (parent : String) (c : Nat)
    (hc : c + 1 < 10 ^ 6) : (pickPartno true lr parent c).1 ≠ parent := by
  unfold pickPartno
  simp only [if_true]
  split
  · next heq =>
    rw [← heq]
    exact getNextPartnoLongStr_succ_ne c (lr.length c) (lr.length (c + 1))
      (lr.suffix c) (lr.suffix (c + 1)) (lr.length_ge c) (lr.length_ge (c + 1)) hc
  · next hne => exact hne

theorem randomRowForChild_snd (parent : String) (seq : Nat) (level : Nat)
    (fields : List String) (useLong : Bool) (lr : LongRand) (rr : RowRand) (c : Nat) :
    (randomRowForChild parent seq level fields useLong lr rr c).2 =
      (pickPartno useLong lr parent c).2 := rfl

theorem randomRowForChild_partNo (parent : String) (seq : Nat) (level : Nat)
    (fields : List String) (useLong : Bool) (lr : LongRand) (rr : RowRand) (c : Nat) :
    (randomRowForChild parent seq level fields useLong lr rr c).1.partNo =
      if "PartNo" ∈ fields then .vstr (pickPartno useLong lr parent c).1 else .vnone := rfl

theorem randomRowForChild_parent (parent : String) (seq : Nat) (level : Nat)
    (fields : List String) (useLong : Bool) (lr : LongRand) (rr : RowRand) (c : Nat) :
    (randomRowForChild parent seq level fields useLong lr rr c).1.parent =
      if "Parent" ∈ fields then .vstr parent else .vnone := rfl

theorem randomRowForChild_sequence (parent : String) (seq : Nat) (level : Nat)
    (fields : List String) (useLong : Bool) (lr : LongRand) (rr : RowRand) (c : Nat) :
    (randomRowForChild parent seq level fields useLong lr rr c).1.sequence =
      if "Sequence" ∈ fields then .vnat (if 0 < seq then seq * 100 else 100)
      else .vnone := rfl

theorem randomChildRowsAux_length (parent : String) (fo : Option (List String))
    (level : Nat) (useLong : Bool) (lr : LongRand) (rand : Nat → RowRand) :
    ∀ n i c, (randomChildRowsAux parent fo level useLong lr rand n i c).1.length = n := by
  intro n
  induction n with
  | zero => intro i c; rfl
  | succ n ih => intro i c; simp [randomChildRowsAux, ih]

/-- Every produced row is the `randomRowForChild` result for its loop index,
at some allocator counter between `c` and `c + 2 * j`. -/
theorem randomChildRowsAux_get (parent : String) (fo : Option (List String))
    (level : Nat) (useLong : Bool) (lr : LongRand) (rand : Nat → RowRand) :
    ∀ n i c j r,
      (randomChildRowsAux parent fo level useLong lr rand n i c).1.get? j = some r →
      ∃ d, c ≤ d ∧ d ≤ c + 2 * j ∧
        r = (randomRowForChild parent (i + j + 1) level (resolveFields fo)
              useLong lr (rand (i + j)) d).1 := by
  intro n
  induction n with
  | zero => intro i c j r h; simp [randomChildRowsAux] at h
  | succ n ih =>
    intro i c j r h
    cases j with
    | zero =>
      simp only [randomChildRowsAux, List.get?_cons_zero, Option.some.injEq] at h
      refine ⟨c, le_refl c, by omega, ?_⟩
      rw [← h]
      congr 2
    | succ j =>
      simp only [randomChildRowsAux, List.get?_cons_succ] at h
      obtain ⟨d, hd1, hd2, hr⟩ := ih (i + 1)
        (randomRowForChild parent (i + 1) level (resolveFields fo) useLong lr (rand i) c).2 j r h
      rw [randomRowForChild_snd] at hd1 hd2
      have hcnt := pickPartno_counter_le useLong lr parent c
      refine ⟨d, by omega, by omega, ?_⟩
      rw [hr]
      have e1 : i + 1 + j = i + (j + 1) := by omega
      rw [e1]

/-- Claim C9: for every parent part number `p` and count `n`,
`random_child_rows(p, n, ...)` returns exactly `n` rows whose sequence index
runs `1..n` (so a populated `Sequence` carries `(i+1)*100` and a populated
`Parent` carries `p`), and a populated `PartNo` is never equal to `p` — the
collision-retry loop guarantees this unconditionally in the short form, and in
the long form whenever the run allocates fewer than a million part numbers. -/
theorem claim_C9 (parent : String) (count : Nat) (fo : Option (List String))
    (level : Nat) (useLong : Bool) (lr : LongRand) (rand : Nat → RowRand) (c : Nat) :
    (randomChildRows parent count fo level useLong lr rand c).1.length = count
    ∧ (∀ j r, (randomChildRows parent count fo level useLong lr rand c).1.get? j = some r →
        ("Sequence" ∈ resolveFields fo → r.sequence = .vnat ((j + 1) * 100))
        ∧ ("Parent" ∈ resolveFields fo → r.parent = .vstr parent))
    ∧ (useLong = false →
        ∀ r ∈ (randomChildRows parent count fo level useLong lr rand c).1,
          ∀ s, r.partNo = .vstr s → s ≠ parent)
    ∧ (useLong = true → c + 2 * count < 10 ^ 6 →
        ∀ r ∈ (randomChildRows parent count fo level useLong lr rand c).1,
          ∀ s, r.partNo = .vstr s → s ≠ parent) := by
  refine ⟨randomChildRowsAux_length parent fo level useLong lr rand count 0 c, ?_, ?_, ?_⟩
  · intro j r h
    obtain ⟨d, _, _, hr⟩ := randomChildRowsAux_get parent fo level useLong lr rand count 0 c j r h
    constructor
    · intro hf
      rw [hr, randomRowForChild_sequence, if_pos hf, if_pos (by omega)]
      norm_num
    · intro hf
      rw [hr, randomRowForChild_parent, if_pos hf]
  · intro hu r hmem s hs
    obtain ⟨j, hj⟩ := List.get?_of_mem hmem
    obtain ⟨d, _, _, hr⟩ := randomChildRowsAux_get parent fo level useLong lr rand count 0 c j r hj
    subst hu
    rw [hr, randomRowForChild_partNo] at hs
    by_cases hin : "PartNo" ∈ resolveFields fo
    · rw [if_pos hin] at hs
      have hse : (pickPartno false lr parent d).1 = s := by
        injection hs
      rw [← hse]
      exact pickPartno_ne_parent_short lr parent d
    · rw [if_neg hin] at hs
      exact absurd hs (by simp)
  · intro hu hbound r hmem s hs
    obtain ⟨j, hj⟩ := List.get?_of_mem hmem
    have hjlt : j < count := by
      have hlen : (randomChildRows parent count fo level useLong lr rand c).1.length = count :=
        randomChildRowsAux_length parent fo level useLong lr rand count 0 c
      by_contra hcon
      rw [List.get?_eq_none.mpr (by omega)] at hj
      exact Option.noConfusion hj
    obtain ⟨d, _, hd2, hr⟩ := randomChildRowsAux_get parent fo level useLong lr rand count 0 c j r hj
    subst hu
    rw [hr, randomRowForChild_partNo] at hs
    by_cases hin : "PartNo" ∈ resolveFields fo
    · rw [if_pos hin] at hs
      have hse : (pickPartno true lr parent d).1 = s := by
        injection hs
      rw [← hse]
      exact pickPartno_ne_parent_long lr parent d (by omega)
    · rw [if_neg hin] at hs
      exact absurd hs (by simp)

/-- Witness for `claim_C9` at concrete inputs. -/
theorem claim_C9_witness :
    (randomChildRows "TOP" 2 (some ["PartNo", "Parent", "Sequence"]) 1 false
      lrSample rowRandSample 0).1.length = 2
    ∧ rowSample.sequence = Value.vnat ((0 + 1) * 100)
    ∧ "A001" ≠ "TOP" := by
  refine ⟨(claim_C9 "TOP" 2 (some ["PartNo", "Parent", "Sequence"]) 1 false
      lrSample rowRandSample 0).1, ?_, ?_⟩
  · exact ((claim_C9 "TOP" 2 (some ["PartNo", "Parent", "Sequence"]) 1 false
      lrSample rowRandSample 0).2.1 0 rowSample (by decide)).1 (by decide)
  · exact (claim_C9 "TOP" 2 (some ["PartNo", "Parent", "Sequence"]) 1 false
      lrSample rowRandSample 0).2.2.1 rfl rowSample (by decide) "A001" (by decide)

/-! ### Claim C4: the category/source rule -/

/-- `_validate_category_source` reports an error exactly for Phantom without a
manufactured source or Exclude without Purchase-to-Stock. -/
theorem validateCategorySource_ne_none_iff (c s : Value) (l : String) :
    validateCategorySource c s l ≠ none ↔
      ((c = .vstr "P" ∧ ¬(s = .vstr "M" ∨ s = .vstr "F"))
        ∨ (c = .vstr "X" ∧ s ≠ .vstr "P")) := by
  unfold validateCategorySource
  split_ifs with h1 h2 h3
  · refine iff_of_false (by simp) ?_
    intro hv
    rcases hv with ⟨hc, _⟩ | ⟨hc, _⟩ <;> (subst hc; simp [Value.truthy] at h1)
  · exact iff_of_true (by simp) (Or.inl h2)
  · exact iff_of_true (by simp) (Or.inr h3)
  · exact iff_of_false (by simp) (by tauto)

theorem level23RowErrors_nil_validate {r : Row} (h : level23RowErrors r = []) :
    validateCategorySource r.category r.source ("Part " ++ r.partNo.pyStr) = none := by
  unfold level23RowErrors at h
  split_ifs at h with hm
  · cases hvv : validateCategorySource r.category r.source ("Part " ++ r.partNo.pyStr) with
    | none => rfl
    | some e => rw [hvv] at h; exact (List.cons_ne_nil _ _ h).elim

/-- Claim C4: validation reports a category/source error exactly when Category
is `"P"` with Source outside `{"M","F"}` or Category is `"X"` with Source not
`"P"`; any other category (including blank) imposes no constraint, and a
validation pass with zero errors guarantees the implications on every row. -/
theorem claim_C4 :
    (∀ c s l, validateCategorySource c s l ≠ none ↔
      ((c = .vstr "P" ∧ ¬(s = .vstr "M" ∨ s = .vstr "F"))
        ∨ (c = .vstr "X" ∧ s ≠ .vstr "P")))
    ∧ (∀ rows : List Row, level23Errors rows = [] →
        ∀ r ∈ rows,
          (r.category = .vstr "P" → r.source = .vstr "M" ∨ r.source = .vstr "F")
          ∧ (r.category = .vstr "X" → r.source = .vstr "P")) := by
  refine ⟨validateCategorySource_ne_none_iff, ?_⟩
  intro rows h r hr
  have hone : level23RowErrors r = [] := by
    have hmem : level23RowErrors r ∈ rows.map level23RowErrors :=
      List.mem_map_of_mem _ hr
    exact List.flatten_eq_nil_iff.mp h _ hmem
  have hvc := level23RowErrors_nil_validate hone
  have hiff := validateCategorySource_ne_none_iff r.category r.source
    ("Part " ++ r.partNo.pyStr)
  constructor
  · intro hc
    by_contra hs
    exact (hiff.mpr (Or.inl ⟨hc, hs⟩)) hvc
  · intro hc
    by_contra hs
    exact (hiff.mpr (Or.inr ⟨hc, hs⟩)) hvc

/-- Witness for `claim_C4` at concrete inputs. -/
theorem claim_C4_witness :
    validateCategorySource (.vstr "P") (.vstr "J") "Part X" ≠ none
    ∧ (rowPhantomSample.source = .vstr "M" ∨ rowPhantomSample.source = .vstr "F") :=
  ⟨(claim_C4.1 (.vstr "P") (.vstr "J") "Part X").mpr (Or.inl ⟨rfl, by decide⟩),
   (claim_C4.2 [rowPhantomSample] (by decide) rowPhantomSample (by decide)).1 rfl⟩

/-! ### Claim C2: sequence reassignment -/

theorem assignSequencesFrom_length (inc : Nat) :
    ∀ rows k, (assignSequencesFrom inc k rows).length = rows.length := by
  intro rows
  induction rows with
  | nil => intro k; rfl
  | cons r rs ih => intro k; simp [assignSequencesFrom, ih]

theorem assignSequencesFrom_get (inc : Nat) :
    ∀ rows k i, (assignSequencesFrom inc k rows).get? i =
      (rows.get? i).map (fun r => { r with sequence := .vnat ((k + i + 1) * inc) }) := by
  intro rows
  induction rows with
  | nil => intro k i; simp [assignSequencesFrom]
  | cons r rs ih =>
    intro k i
    cases i with
    | zero => simp [assignSequencesFrom]
    | succ i =>
      simp only [assignSequencesFrom, List.get?_cons_succ, ih (k + 1) i]
      have e : k + 1 + i + 1 = k + (i + 1) + 1 := by omega
      rw [e]

/-- Claim C2: after assembly the rows of each level carry
`Sequence = (index+1) * sequence_increment` in final order — overwriting any
provisional value — and within one level the sequence values are strictly
increasing multiples of the increment starting at `1 * increment`. -/
theorem claim_C2 (inc : Nat) (hinc : inc ∈ [1, 10, 100, 1000, 10000]) (rows : List Row) :
    (assignSequences inc rows).length = rows.length
    ∧ (∀ i r0, rows.get? i = some r0 →
        (assignSequences inc rows).get? i =
          some { r0 with sequence := .vnat ((i + 1) * inc) })
    ∧ (∀ i j ri rj, (assignSequences inc rows).get? i = some ri →
        (assignSequences inc rows).get? j = some rj → i < j →
        ∃ a b, ri.sequence = .vnat a ∧ rj.sequence = .vnat b
          ∧ a = (i + 1) * inc ∧ b = (j + 1) * inc ∧ a < b ∧ inc ∣ a ∧ inc ∣ b) := by
  have hpos : 0 < inc := by
    simp only [List.mem_cons, List.not_mem_nil, or_false] at hinc
    rcases hinc with h | h | h | h | h <;> omega
  refine ⟨assignSequencesFrom_length inc rows 0, ?_, ?_⟩
  · intro i r0 h
    rw [assignSequences, assignSequencesFrom_get, h]
    simp only [Option.map_some']
    have e : 0 + i + 1 = i + 1 := by omega
    rw [e]
  · intro i j ri rj hi hj hij
    rw [assignSequences, assignSequencesFrom_get] at hi hj
    cases hri : rows.get? i with
    | none => rw [hri] at hi; simp at hi
    | some r0 =>
      cases hrj : rows.get? j with
      | none => rw [hrj] at hj; simp at hj
      | some r1 =>
        rw [hri] at hi
        rw [hrj] at hj
        simp only [Option.map_some', Option.some.injEq] at hi hj
        refine ⟨(i + 1) * inc, (j + 1) * inc, ?_, ?_, by omega, by omega, ?_, ?_, ?_⟩
        · simp only [Nat.zero_add] at hi
          rw [← hi]
        · simp only [Nat.zero_add] at hj
          rw [← hj]
        · exact (Nat.mul_lt_mul_right hpos).mpr (by omega)
        · exact Dvd.intro (i + 1) (Nat.mul_comm inc (i + 1))
        · exact Dvd.intro (j + 1) (Nat.mul_comm inc (j + 1))

/-- Witness for `claim_C2` at concrete inputs. -/
theorem claim_C2_witness :
    (assignSequences 100 [rowPhantomSample, rowSample]).get? 1 =
      some { rowSample with sequence := .vnat ((1 + 1) * 100) } :=
  (claim_C2 100 (by decide) [rowPhantomSample, rowSample]).2.1 1 rowSample rfl

/-! ### Claims C3 and C8: the written output, self-parent clearing, and the
required-field gate of the writer -/

theorem appendRowByHeaders_ok {r r' : Row} (h : appendRowByHeaders r = .ok r') :
    r' = r ∧ appendMissing r = [] := by
  unfold appendRowByHeaders at h
  split_ifs at h with hc
  exact ⟨(Except.ok.inj h).symm, hc⟩

theorem appendRowByHeaders_error {r : Row} {l : List String}
    (h : appendRowByHeaders r = .error l) : l = appendMissing r ∧ l ≠ [] := by
  unfold appendRowByHeaders at h
  split_ifs at h with hc
  exact ⟨(Except.error.inj h).symm, by rw [(Except.error.inj h).symm]; exact hc⟩

theorem appendAllRows_ok :
    ∀ rows out, appendAllRows rows = .ok out → out = rows.map clear_self_parent := by
  intro rows
  induction rows with
  | nil =>
    intro out h
    simp only [appendAllRows] at h
    exact (Except.ok.inj h).symm
  | cons r rs ih =>
    intro out h
    simp only [appendAllRows] at h
    cases happ : appendRowByHeaders (clear_self_parent r) with
    | error e => rw [happ] at h; exact Except.noConfusion h
    | ok r' =>
      rw [happ] at h
      cases hrest : appendAllRows rs with
      | error e =>
        rw [hrest] at h
        exact Except.noConfusion h
      | ok rest =>
        rw [hrest] at h
        have h' := Except.ok.inj h
        rw [List.map_cons, ← ih rest hrest, ← (appendRowByHeaders_ok happ).1, ← h']

theorem writeOutput_ok {p : String} {pr : Row} {rows out : List Row}
    (h : writeOutput p pr rows = .ok out) :
    out = writtenTopRow p pr :: rows.map clear_self_parent := by
  unfold writeOutput at h
  cases happ : appendAllRows rows with
  | error e => rw [happ] at h; exact Except.noConfusion h
  | ok rest =>
    rw [happ] at h
    have h' := Except.ok.inj h
    rw [← h', appendAllRows_ok rows rest happ]

theorem clear_self_parent_no_self (r : Row) :
    ¬((clear_self_parent r).partNo.truthy = true
      ∧ (clear_self_parent r).parent.truthy = true
      ∧ pyStrip (clear_self_parent r).partNo.pyStr = pyStrip (clear_self_parent r).parent.pyStr) := by
  unfold clear_self_parent
  split_ifs with h
  · intro hc
    have := hc.2.1
    simp [Value.truthy] at this
  · exact h

theorem clear_self_parent_clears {r : Row} (h1 : r.partNo.truthy = true)
    (h2 : r.parent.truthy = true) (h3 : pyStrip r.partNo.pyStr = pyStrip r.parent.pyStr) :
    (clear_self_parent r).parent = .vstr "" := by
  unfold clear_self_parent
  rw [if_pos ⟨h1, h2, h3⟩]

theorem clear_self_parent_parent_blank {r : Row}
    (h : (clear_self_parent r).parent = .vstr "") :
    r.parent = .vstr "" ∨ pyStrip r.partNo.pyStr = pyStrip r.parent.pyStr := by
  unfold clear_self_parent at h
  split_ifs at h with hc
  · exact Or.inr hc.2.2
  · exact Or.inl h

/-- Claim C3 counterexample: the Level-0 top row is written with its `Parent`
column equal to its own `PartNo` (`ui.py` lines 744-748), so the written
output does contain a row whose `PartNo` equals its `Parent`. -/
theorem claim_C3_counterexample :
    writeOutput "TOP" topRowSample [] = .ok [writtenTopRow "TOP" topRowSample]
    ∧ (writtenTopRow "TOP" topRowSample).partNo = .vstr "TOP"
    ∧ (writtenTopRow "TOP" topRowSample).parent = .vstr "TOP" :=
  ⟨rfl, rfl, rfl⟩

/-- Claim C3 (amended): in the written output, every row below the top one
satisfies the no-self-parent invariant — a row whose `PartNo` equalled its
`Parent` before post-processing is written with `Parent` cleared to the empty
string rather than rejected — while the Level-0 top row is deliberately
written with `Parent` set to its own `PartNo`. -/
theorem claim_C3 (p : String) (pr : Row) (rows out : List Row)
    (h : writeOutput p pr rows = Except.ok out) :
    out.get? 0 = some (writtenTopRow p pr)
    ∧ (writtenTopRow p pr).parent = .vstr p
    ∧ (pr.partNo = .vstr p →
        (writtenTopRow p pr).partNo = (writtenTopRow p pr).parent)
    ∧ (∀ r ∈ out.tail,
        ¬(r.partNo.truthy = true ∧ r.parent.truthy = true
          ∧ pyStrip r.partNo.pyStr = pyStrip r.parent.pyStr))
    ∧ (∀ i r, rows.get? i = some r → r.partNo.truthy = true →
        r.parent.truthy = true → pyStrip r.partNo.pyStr = pyStrip r.parent.pyStr →
        ∃ r', out.get? (i + 1) = some r' ∧ r'.parent = .vstr "") := by
  have hout := writeOutput_ok h
  subst hout
  refine ⟨rfl, rfl, ?_, ?_, ?_⟩
  · intro hpn
    show (writtenTopRow p pr).partNo = .vstr p
    unfold writtenTopRow
    rw [hpn]
    rfl
  · intro r hr
    simp only [List.tail_cons] at hr
    obtain ⟨r0, _, hr0⟩ := List.mem_map.mp hr
    rw [← hr0]
    exact clear_self_parent_no_self r0
  · intro i r hget h1 h2 h3
    refine ⟨clear_self_parent r, ?_, clear_self_parent_clears h1 h2 h3⟩
    simp only [List.get?_cons_succ, List.get?_map, hget, Option.map_some']

/-- Witness for `claim_C3` at concrete inputs. -/
theorem claim_C3_witness :
    outSample.get? 0 = some (writtenTopRow "TOP" topRowSample)
    ∧ (writtenTopRow "TOP" topRowSample).parent = .vstr "TOP" :=
  ⟨(claim_C3 "TOP" topRowSample [selfParentRowSample] outSample rfl).1,
   (claim_C3 "TOP" topRowSample [selfParentRowSample] outSample rfl).2.1⟩

/-- Claim C8 counterexample: `append_row_by_headers` accepts an empty
`Parent` on any row, not only on the designated top-level row — a non-top row
cleared by `clear_self_parent` is written with `Parent = ""` while the
Level-0 row itself is written with a non-empty `Parent` (its own `PartNo`). -/
theorem claim_C8_counterexample :
    appendRowByHeaders emptyParentRowSample = .ok emptyParentRowSample
    ∧ writeOutput "TOP" topRowSample [selfParentRowSample] = .ok outSample
    ∧ outSample.get? 1 = some { selfParentRowSample with parent := .vstr "" }
    ∧ ({ selfParentRowSample with parent := .vstr "" } : Row).parent = .vstr ""
    ∧ (writtenTopRow "TOP" topRowSample).parent = .vstr "TOP" :=
  ⟨rfl, rfl, rfl, rfl, rfl⟩

theorem isMissingForAppend_partNo (r : Row) :
    isMissingForAppend r "PartNo" = r.partNo.isBlank := by
  simp [isMissingForAppend, Row.get]

theorem isMissingForAppend_quantity (r : Row) :
    isMissingForAppend r "Quantity" = r.quantity.isBlank := by
  simp [isMissingForAppend, Row.get]

theorem isMissingForAppend_sequence (r : Row) :
    isMissingForAppend r "Sequence" = r.sequence.isBlank := by
  simp [isMissingForAppend, Row.get]

theorem isMissingForAppend_parent (r : Row) :
    isMissingForAppend r "Parent" = false ↔
      (r.parent = .vstr "" ∨ r.parent.isBlank = false) := by
  unfold isMissingForAppend
  by_cases hp : r.get "Parent" = .vstr ""
  · rw [if_pos ⟨rfl, hp⟩]
    simp only [true_iff]
    exact Or.inl hp
  · rw [if_neg (by intro hc; exact hp hc.2)]
    have hpar : r.get "Parent" = r.parent := rfl
    rw [hpar] at hp ⊢
    constructor
    · intro h; exact Or.inr h
    · intro h
      rcases h with h | h
      · exact absurd h hp
      · exact h

theorem appendMissing_nil_iff (r : Row) :
    appendMissing r = [] ↔
      (isMissingForAppend r "PartNo" = false
        ∧ isMissingForAppend r "Quantity" = false
        ∧ isMissingForAppend r "Parent" = false
        ∧ isMissingForAppend r "Sequence" = false) := by
  rw [appendMissing, REQUIRED_FIELDS, List.filter_eq_nil_iff]
  constructor
  · intro h
    exact ⟨by simpa using h "PartNo" (by simp), by simpa using h "Quantity" (by simp),
           by simpa using h "Parent" (by simp), by simpa using h "Sequence" (by simp)⟩
  · intro h f hf
    simp only [List.mem_cons, List.not_mem_nil, or_false] at hf
    rcases hf with rfl | rfl | rfl | rfl <;> simp [h.1, h.2.1, h.2.2.1, h.2.2.2]

/-- Claim C8 (amended): every row accepted by `append_row_by_headers` has
`PartNo`, `Quantity` and `Sequence` present and non-empty and `Parent` present
(never `None`), but `Parent` may be the empty string on any appended row — in
the pipeline this happens exactly for rows whose `Parent` equalled their own
`PartNo`, which `clear_self_parent` blanks — while the designated top-level
row bypasses the check entirely and is written with `Parent` set to its own
`PartNo`; a row with missing required fields is rejected with an error naming
exactly the missing fields. -/
theorem claim_C8 :
    (∀ r r', appendRowByHeaders r = .ok r' →
        r' = r ∧ r.partNo.isBlank = false ∧ r.quantity.isBlank = false
        ∧ r.sequence.isBlank = false
        ∧ (r.parent = .vstr "" ∨ r.parent.isBlank = false))
    ∧ (∀ r l, appendRowByHeaders r = .error l → l = appendMissing r ∧ l ≠ [])
    ∧ (∀ p pr rows out, writeOutput p pr rows = Except.ok out →
        out.get? 0 = some (writtenTopRow p pr)
        ∧ (writtenTopRow p pr).parent = .vstr p
        ∧ (∀ i r', out.get? (i + 1) = some r' → r'.parent = .vstr "" →
            ∃ r, rows.get? i = some r ∧ r' = clear_self_parent r
              ∧ (r.parent = .vstr "" ∨ pyStrip r.partNo.pyStr = pyStrip r.parent.pyStr))) := by
  refine ⟨?_, ?_, ?_⟩
  · intro r r' h
    obtain ⟨hrr, hnil⟩ := appendRowByHeaders_ok h
    obtain ⟨h1, h2, h3, h4⟩ := (appendMissing_nil_iff r).mp hnil
    rw [isMissingForAppend_partNo] at h1
    rw [isMissingForAppend_quantity] at h2
    rw [isMissingForAppend_sequence] at h4
    exact ⟨hrr, h1, h2, h4, (isMissingForAppend_parent r).mp h3⟩
  · intro r l h
    exact appendRowByHeaders_error h
  · intro p pr rows out h
    have hout := writeOutput_ok h
    subst hout
    refine ⟨rfl, rfl, ?_⟩
    intro i r' hget hpar
    simp only [List.get?_cons_succ, List.get?_map] at hget
    cases hri : rows.get? i with
    | none => rw [hri] at hget; exact Option.noConfusion hget
    | some r =>
      rw [hri] at hget
      simp only [Option.map_some', Option.some.injEq] at hget
      refine ⟨r, rfl, hget.symm, ?_⟩
      rw [← hget] at hpar
      exact clear_self_parent_parent_blank hpar

/-- Witness for `claim_C8` at concrete inputs. -/
theorem claim_C8_witness :
    (emptyParentRowSample.parent = .vstr ""
      ∨ emptyParentRowSample.parent.isBlank = false)
    ∧ outSample.get? 0 = some (writtenTopRow "TOP" topRowSample) :=
  ⟨(claim_C8.1 emptyParentRowSample emptyParentRowSample rfl).2.2.2.2,
   (claim_C8.2.2 "TOP" topRowSample [selfParentRowSample] outSample rfl).1⟩

/-! ### Claim C7: batch error accumulation and the output gate -/

theorem requiredMissing_nil_iff (r : Row) :
    requiredMissing r = [] ↔
      (r.partNo.isBlank = false ∧ r.quantity.isBlank = false
        ∧ r.parent.isBlank = false ∧ r.sequence.isBlank = false) := by
  rw [requiredMissing, REQUIRED_FIELDS, List.filter_eq_nil_iff]
  constructor
  · intro h
    exact ⟨by simpa [Row.get] using h "PartNo" (by simp),
           by simpa [Row.get] using h "Quantity" (by simp),
           by simpa [Row.get] using h "Parent" (by simp),
           by simpa [Row.get] using h "Sequence" (by simp)⟩
  · intro h f hf
    simp only [List.mem_cons, List.not_mem_nil, or_false] at hf
    rcases hf with rfl | rfl | rfl | rfl <;>
      simp [Row.get, h.1, h.2.1, h.2.2.1, h.2.2.2]

theorem level1RowErrors_nil_required {i : Nat} {r : Row}
    (h : level1RowErrors i r = []) : requiredMissing r = [] := by
  unfold level1RowErrors at h
  split_ifs at h with hm
  exact not_not.mp hm

theorem level23RowErrors_nil_required {r : Row}
    (h : level23RowErrors r = []) : requiredMissing r = [] := by
  unfold level23RowErrors at h
  split_ifs at h with hm
  exact not_not.mp hm

theorem level1ErrorsFrom_mem :
    ∀ (rows : List Row) (k i : Nat) (r : Row), rows.get? i = some r →
      ∀ e ∈ level1RowErrors (k + i) r, e ∈ level1ErrorsFrom k rows := by
  intro rows
  induction rows with
  | nil => intro k i r h; exact absurd h (by simp)
  | cons x xs ih =>
    intro k i r h e he
    cases i with
    | zero =>
      simp only [List.get?_cons_zero, Option.some.injEq] at h
      subst h
      exact List.mem_append_left _ (by simpa using he)
    | succ i =>
      simp only [List.get?_cons_succ] at h
      apply List.mem_append_right
      apply ih (k + 1) i r h e
      rw [show k + 1 + i = k + (i + 1) by omega]
      exact he

theorem level23Errors_mem {rows : List Row} {r : Row} (hr : r ∈ rows) :
    ∀ e ∈ level23RowErrors r, e ∈ level23Errors rows := by
  intro e he
  unfold level23Errors
  rw [List.mem_flatten]
  exact ⟨level23RowErrors r, List.mem_map_of_mem _ hr, he⟩

theorem applyOverrides_partNo (a b : Bool) (pR pL : String) (r : Row) :
    (applyOverrides a b pR pL r).partNo = r.partNo := by
  unfold applyOverrides
  dsimp only
  split_ifs <;> rfl

theorem applyOverrides_quantity (a b : Bool) (pR pL : String) (r : Row) :
    (applyOverrides a b pR pL r).quantity = r.quantity := by
  unfold applyOverrides
  dsimp only
  split_ifs <;> rfl

theorem applyOverrides_parent (a b : Bool) (pR pL : String) (r : Row) :
    (applyOverrides a b pR pL r).parent = r.parent := by
  unfold applyOverrides
  dsimp only
  split_ifs <;> rfl

theorem applyOverrides_sequence (a b : Bool) (pR pL : String) (r : Row) :
    (applyOverrides a b pR pL r).sequence = r.sequence := by
  unfold applyOverrides
  dsimp only
  split_ifs <;> rfl

theorem clear_self_parent_partNo (r : Row) :
    (clear_self_parent r).partNo = r.partNo := by
  unfold clear_self_parent
  split_ifs <;> rfl

theorem clear_self_parent_quantity (r : Row) :
    (clear_self_parent r).quantity = r.quantity := by
  unfold clear_self_parent
  split_ifs <;> rfl

theorem clear_self_parent_sequence (r : Row) :
    (clear_self_parent r).sequence = r.sequence := by
  unfold clear_self_parent
  split_ifs <;> rfl

theorem clear_self_parent_parent_cases (r : Row) :
    (clear_self_parent r).parent = .vstr "" ∨ (clear_self_parent r).parent = r.parent := by
  unfold clear_self_parent
  split_ifs
  · exact Or.inl rfl
  · exact Or.inr rfl

/-- A row passing the required-field validation survives the overrides and the
self-parent clearing and is accepted by `append_row_by_headers`. -/
theorem appendMissing_clear_override_nil {r : Row} (h : requiredMissing r = [])
    (a b : Bool) (pR pL : String) :
    appendMissing (clear_self_parent (applyOverrides a b pR pL r)) = [] := by
  obtain ⟨h1, h2, h3, h4⟩ := (requiredMissing_nil_iff r).mp h
  apply (appendMissing_nil_iff _).mpr
  refine ⟨?_, ?_, ?_, ?_⟩
  · rw [isMissingForAppend_partNo, clear_self_parent_partNo, applyOverrides_partNo]
    exact h1
  · rw [isMissingForAppend_quantity, clear_self_parent_quantity, applyOverrides_quantity]
    exact h2
  · apply (isMissingForAppend_parent _).mpr
    rcases clear_self_parent_parent_cases (applyOverrides a b pR pL r) with hp | hp
    · exact Or.inl hp
    · refine Or.inr ?_
      rw [hp, applyOverrides_parent]
      exact h3
  · rw [isMissingForAppend_sequence, clear_self_parent_sequence, applyOverrides_sequence]
    exact h4

theorem appendAllRows_isOk :
    ∀ rows : List Row, (∀ r ∈ rows, appendMissing (clear_self_parent r) = []) →
      appendAllRows rows = .ok (rows.map clear_self_parent) := by
  intro rows
  induction rows with
  | nil => intro _; rfl
  | cons r rs ih =>
    intro h
    have hr : appendRowByHeaders (clear_self_parent r) = .ok (clear_self_parent r) := by
      unfold appendRowByHeaders
      rw [if_pos (h r (by simp))]
    simp only [appendAllRows, hr, ih (fun x hx => h x (by simp [hx])), List.map_cons]
    rfl

/-- Membership in an `assignSequences` result comes from a source row with the
same required fields and a numeric sequence. -/
theorem assignSequences_mem_required {inc : Nat} {rows : List Row} {r' : Row}
    (hm : r' ∈ assignSequences inc rows)
    (hreq : ∀ r ∈ rows, requiredMissing r = []) : requiredMissing r' = [] := by
  obtain ⟨j, hj⟩ := List.get?_of_mem hm
  rw [assignSequences, assignSequencesFrom_get] at hj
  cases hr0 : rows.get? j with
  | none => rw [hr0] at hj; exact Option.noConfusion hj
  | some r0 =>
    rw [hr0] at hj
    simp only [Option.map_some', Option.some.injEq] at hj
    obtain ⟨h1, h2, h3, _⟩ :=
      (requiredMissing_nil_iff r0).mp (hreq r0 (List.get?_mem hr0))
    apply (requiredMissing_nil_iff r').mpr
    rw [← hj]
    exact ⟨h1, h2, h3, rfl⟩

theorem level1Errors_nil_required {children : List Row}
    (h : level1Errors children = []) : ∀ r ∈ children, requiredMissing r = [] := by
  intro r hr
  obtain ⟨i, hi⟩ := List.get?_of_mem hr
  apply level1RowErrors_nil_required (i := 1 + i)
  cases he : level1RowErrors (1 + i) r with
  | nil => rfl
  | cons e es =>
    have : e ∈ level1ErrorsFrom 1 children :=
      level1ErrorsFrom_mem children 1 i r hi e (by rw [he]; simp)
    rw [level1Errors] at h
    rw [h] at this
    exact absurd this (by simp)

/-- Claim C7: the Generate pipeline accumulates every field-validation error
across all rows into one batch — the parent error, every Level-1 row error
(regardless of earlier failures), and, when the first stage is clean, every
assembled Level-2/3 row error — and the output is produced if and only if the
accumulated error list is empty. -/
theorem claim_C7 (p : String) (parentRow : Option Row)
    (children level2Rows level3Rows : List Row) (inc : Nat)
    (aR aL : Bool) (pR pL : String) :
    ((generateBOM p parentRow children level2Rows level3Rows inc aR aL pR pL).output.isSome = true
      ↔ (generateBOM p parentRow children level2Rows level3Rows inc aR aL pR pL).errors = [])
    ∧ (∀ e ∈ parentErrors parentRow,
        e ∈ (generateBOM p parentRow children level2Rows level3Rows inc aR aL pR pL).errors)
    ∧ (∀ i r, children.get? i = some r → ∀ e ∈ level1RowErrors (i + 1) r,
        e ∈ (generateBOM p parentRow children level2Rows level3Rows inc aR aL pR pL).errors)
    ∧ (parentErrors parentRow = [] → level1Errors children = [] →
        ∀ r ∈ assignSequences inc level2Rows ++ assignSequences inc level3Rows,
          ∀ e ∈ level23RowErrors r,
            e ∈ (generateBOM p parentRow children level2Rows level3Rows inc aR aL pR pL).errors) := by
  unfold generateBOM
  dsimp only
  split_ifs with h1 h2
  · -- stage-one errors: output withheld, e1 reported whole
    refine ⟨iff_of_false (by simp) h1, ?_, ?_, ?_⟩
    · intro e he
      exact List.mem_append_left _ he
    · intro i r hget e he
      apply List.mem_append_right
      apply level1ErrorsFrom_mem children 1 i r hget e
      rw [show 1 + i = i + 1 by omega]
      exact he
    · intro hpe hl1
      rw [hpe, hl1] at h1
      simp at h1
  · -- stage-two errors: output withheld, e2 reported whole
    have h1' : parentErrors parentRow ++ level1Errors children = [] := not_not.mp h1
    obtain ⟨hpe, hl1⟩ := List.append_eq_nil.mp h1'
    refine ⟨iff_of_false (by simp) h2, ?_, ?_, ?_⟩
    · intro e he
      rw [hpe] at he
      exact absurd he (by simp)
    · intro i r hget e he
      have : e ∈ level1ErrorsFrom 1 children := by
        apply level1ErrorsFrom_mem children 1 i r hget e
        rw [show 1 + i = i + 1 by omega]
        exact he
      rw [level1Errors] at hl1
      rw [hl1] at this
      exact absurd this (by simp)
    · intro _ _ r hr e he
      apply List.mem_append_right
      exact level23Errors_mem (by simpa using hr) e he
  · -- both stages clean: the write must succeed
    have h1' : parentErrors parentRow ++ level1Errors children = [] := not_not.mp h1
    obtain ⟨hpe, hl1⟩ := List.append_eq_nil.mp h1'
    have h2' : parentErrors parentRow ++ level1Errors children ++
        level23Errors (assignSequences inc level2Rows ++ assignSequences inc level3Rows) = [] :=
      not_not.mp h2
    rw [h1'] at h2'
    simp only [List.nil_append] at h2'
    cases parentRow with
    | none => rw [parentErrors] at hpe; exact absurd hpe (by simp)
    | some pr =>
      have hreq : ∀ r ∈ (assignSequences inc children ++ assignSequences inc level2Rows ++
          assignSequences inc level3Rows).map (applyOverrides aR aL pR pL),
          appendMissing (clear_self_parent r) = [] := by
        intro r' hr'
        obtain ⟨r0, hr0, hmap⟩ := List.mem_map.mp hr'
        rw [← hmap]
        rcases List.mem_append.mp hr0 with hr0' | hr0'
        · rcases List.mem_append.mp hr0' with hc | hl2
          · exact appendMissing_clear_override_nil
              (assignSequences_mem_required hc (level1Errors_nil_required hl1)) aR aL pR pL
          · refine appendMissing_clear_override_nil ?_ aR aL pR pL
            apply level23RowErrors_nil_required
            cases he : level23RowErrors r0 with
            | nil => rfl
            | cons e es =>
              have : e ∈ level23Errors (assignSequences inc level2Rows ++ assignSequences inc level3Rows) :=
                level23Errors_mem (List.mem_append_left _ hl2) e (by rw [he]; simp)
              rw [h2'] at this
              exact absurd this (by simp)
        · refine appendMissing_clear_override_nil ?_ aR aL pR pL
          apply level23RowErrors_nil_required
          cases he : level23RowErrors r0 with
          | nil => rfl
          | cons e es =>
            have : e ∈ level23Errors (assignSequences inc level2Rows ++ assignSequences inc level3Rows) :=
              level23Errors_mem (List.mem_append_right _ hr0') e (by rw [he]; simp)
            rw [h2'] at this
            exact absurd this (by simp)
      have hwrite : writeOutput p pr ((assignSequences inc children ++ assignSequences inc level2Rows ++
          assignSequences inc level3Rows).map (applyOverrides aR aL pR pL)) =
          .ok (writtenTopRow p pr :: ((assignSequences inc children ++ assignSequences inc level2Rows ++
            assignSequences inc level3Rows).map (applyOverrides aR aL pR pL)).map clear_self_parent) := by
        unfold writeOutput
        rw [appendAllRows_isOk _ hreq]
        rfl
      dsimp only
      rw [hwrite]
      dsimp only
      refine ⟨iff_of_true (by simp) rfl, ?_, ?_, ?_⟩
      · intro e he
        rw [hpe] at he
        exact absurd he (by simp)
      · intro i r hget e he
        have : e ∈ level1ErrorsFrom 1 children := by
          apply level1ErrorsFrom_mem children 1 i r hget e
          rw [show 1 + i = i + 1 by omega]
          exact he
        rw [level1Errors] at hl1
        rw [hl1] at this
        exact absurd this (by simp)
      · intro _ _ r hr e he
        have : e ∈ level23Errors (assignSequences inc level2Rows ++ assignSequences inc level3Rows) :=
          level23Errors_mem (by simpa using hr) e he
        rw [h2'] at this
        exact absurd this (by simp)

/-- Witness for `claim_C7` at concrete inputs: a clean run produces output
with an empty error list, and a run with a bad Level-1 row reports the
missing-field error. -/
theorem claim_C7_witness :
    ((generateBOM "TOP" (some topRowSample) [rowPhantomSample] [] [] 100
        false false "" "").output.isSome = true
      ↔ (generateBOM "TOP" (some topRowSample) [rowPhantomSample] [] [] 100
          false false "" "").errors = [])
    ∧ "Level 1 part #1: Missing PartNo" ∈
        (generateBOM "TOP" (some topRowSample) [badRowSample] [] [] 100
          false false "" "").errors :=
  ⟨(claim_C7 "TOP" (some topRowSample) [rowPhantomSample] [] [] 100 false false "" "").1,
   (claim_C7 "TOP" (some topRowSample) [badRowSample] [] [] 100 false false "" "").2.2.1
     0 badRowSample rfl "Level 1 part #1: Missing PartNo" (by decide)⟩

theorem firstSourceFor_manufactured {cd : List Row} {v : Value}
    (h : firstSourceFor cd v = .vstr "M" ∨ firstSourceFor cd v = .vstr "F") :
    ∃ c ∈ cd, c.partNo = v ∧ (c.source = .vstr "M" ∨ c.source = .vstr "F") := by
  unfold firstSourceFor at h
  cases hf : cd.find? (fun c => decide (c.partNo = v)) with
  | none => rw [hf] at h; rcases h with h | h <;> exact Value.noConfusion h
  | some c =>
    rw [hf] at h
    refine ⟨c, List.mem_of_find?_eq_some hf, ?_, h⟩
    have := List.find?_some hf
    simpa using this

theorem l2SourceFor_manufactured {l2Manual : List Row} {v : Value}
    (h : l2SourceFor l2Manual v = .vstr "M" ∨ l2SourceFor l2Manual v = .vstr "F") :
    ∃ r ∈ l2Manual, r.partNo = v ∧ (r.source = .vstr "M" ∨ r.source = .vstr "F") := by
  unfold l2SourceFor at h
  cases hf : (l2Manual.filter
      (fun r => r.partNo.truthy && decide (r.partNo = v))).getLast? with
  | none => rw [hf] at h; rcases h with h | h <;> exact Value.noConfusion h
  | some r =>
    rw [hf] at h
    have hmem := List.mem_of_mem_getLast? hf
    have hmf := List.mem_filter.mp hmem
    refine ⟨r, hmf.1, ?_, h⟩
    have := hmf.2
    simp only [Bool.and_eq_true, decide_eq_true_eq] at this
    exact this.2

/-- Claim C6: when no Level-1 row has a Manufactured source, the Level-2
section blocks all groups and reports a warning; a Level-2 group parent can
only be (the part number of) a Level-1 row whose source is `M` or `F`; and the
identical rule gates Level-3 groups against the manual Level-2 rows. -/
theorem claim_C6 (cd l2Manual : List Row) (n2 n3 : Nat) (ch2 ch3 : Nat → Nat) :
    (level1Partnos cd ≠ [] → anyL1Manufactured cd = false →
      (l2Section cd n2 ch2).groupParents = []
      ∧ (l2Section cd n2 ch2).warnings = [l2Warning])
    ∧ (∀ po ∈ (l2Section cd n2 ch2).groupParents, ∀ v, po = some v →
        ∃ c ∈ cd, c.partNo = v ∧ (c.source = .vstr "M" ∨ c.source = .vstr "F"))
    ∧ (level2PartnosForL3 l2Manual ≠ [] → anyL2Manufactured l2Manual = false →
        (l3Section cd l2Manual n3 ch3).groupParents = []
        ∧ (level1Partnos cd ≠ [] →
            (l3Section cd l2Manual n3 ch3).warnings = [l3Warning]))
    ∧ (∀ po ∈ (l3Section cd l2Manual n3 ch3).groupParents, ∀ v, po = some v →
        ∃ r ∈ l2Manual, r.partNo = v
          ∧ (r.source = .vstr "M" ∨ r.source = .vstr "F")) := by
  refine ⟨?_, ?_, ?_, ?_⟩
  · intro hne hnm
    have hblock : blockL2 cd = true := by
      unfold blockL2
      rw [hnm]
      simp [List.isEmpty_iff, hne]
    unfold l2Section
    rw [if_neg (by simp [List.isEmpty_iff, hne]), if_pos hblock]
    exact ⟨rfl, rfl⟩
  · intro po hpo v hv
    unfold l2Section at hpo
    split_ifs at hpo with hg hb
    · exact absurd hpo (by simp)
    · exact absurd hpo (by simp)
    · obtain ⟨g, _, hpick⟩ := List.mem_map.mp hpo
      rw [hv] at hpick
      unfold pickParent at hpick
      have hvmem : v ∈ level1PartnosManufactured cd := List.get?_mem hpick
      have := (List.mem_filter.mp hvmem).2
      simp only [decide_eq_true_eq] at this
      exact firstSourceFor_manufactured this
  · intro hne hnm
    have hblock : blockL3 l2Manual = true := by
      unfold blockL3
      rw [hnm]
      simp [List.isEmpty_iff, hne]
    unfold l3Section
    split_ifs with hg
    · exact ⟨rfl, fun hcd => absurd (List.isEmpty_iff.mp hg) hcd⟩
    · exact ⟨rfl, fun _ => rfl⟩
  · intro po hpo v hv
    unfold l3Section at hpo
    split_ifs at hpo with hg hb
    · exact absurd hpo (by simp)
    · exact absurd hpo (by simp)
    · obtain ⟨g, _, hpick⟩ := List.mem_map.mp hpo
      rw [hv] at hpick
      unfold pickParent at hpick
      have hvmem : v ∈ level2PartnosManufactured l2Manual := List.get?_mem hpick
      have := (List.mem_filter.mp hvmem).2
      simp only [decide_eq_true_eq] at this
      exact l2SourceFor_manufactured this

/-- Witness for `claim_C6` at concrete inputs. -/
theorem claim_C6_witness :
    (l2Section [rowPurchSample] 3 (fun _ => 0)).groupParents = []
    ∧ (l2Section [rowPurchSample] 3 (fun _ => 0)).warnings = [l2Warning] :=
  (claim_C6 [rowPurchSample] [] 3 0 (fun _ => 0) (fun _ => 0)).1
    (by decide) (by decide)

/-! ### Dict lemmas -/

theorem find?_replace_same (k : String) (v : BOMItem) :
    ∀ d : List (String × BOMItem),
      (d.map (fun p => if p.1 = k then (k, v) else p)).find?
          (fun p => decide (p.1 = k)) =
        if d.any (fun p => decide (p.1 = k)) then some (k, v) else none := by
  intro d
  induction d with
  | nil => rfl
  | cons p ps ih =>
    by_cases hp : p.1 = k
    · simp [List.find?_cons, hp]
    · simp only [List.map_cons, if_neg hp, List.any_cons]
      rw [List.find?_cons_of_neg _ (by simpa using hp)]
      rw [ih]
      simp only [decide_eq_true_eq, hp, decide_False, Bool.false_or]

theorem find?_replace_other (k : String) (v : BOMItem) (k' : String) (hk : k' ≠ k) :
    ∀ d : List (String × BOMItem),
      (d.map (fun p => if p.1 = k then (k, v) else p)).find?
          (fun p => decide (p.1 = k')) =
        d.find? (fun p => decide (p.1 = k')) := by
  intro d
  induction d with
  | nil => rfl
  | cons p ps ih =>
    by_cases hp : p.1 = k
    · have hpk' : ¬p.1 = k' := by rw [hp]; exact fun hc => hk hc.symm
      simp only [List.map_cons, if_pos hp]
      rw [List.find?_cons_of_neg _ (by simpa using fun hc : k = k' => hk hc.symm)]
      rw [List.find?_cons_of_neg _ (by simpa using hpk')]
      exact ih
    · simp only [List.map_cons, if_neg hp]
      by_cases hpk' : p.1 = k'
      · rw [List.find?_cons_of_pos _ (by simpa using hpk')]
        rw [List.find?_cons_of_pos _ (by simpa using hpk')]
      · rw [List.find?_cons_of_neg _ (by simpa using hpk')]
        rw [List.find?_cons_of_neg _ (by simpa using hpk')]
        exact ih

theorem dictFind_insert (d : List (String × BOMItem)) (k : String) (v : BOMItem)
    (k' : String) :
    dictFind (dictInsert d k v) k' = if k' = k then some v else dictFind d k' := by
  unfold dictInsert dictFind
  by_cases hany : d.any (fun p => decide (p.1 = k)) = true
  · rw [if_pos hany]
    by_cases hk : k' = k
    · subst hk
      rw [if_pos rfl, find?_replace_same, if_pos hany]
      rfl
    · rw [if_neg hk, find?_replace_other k v k' hk]
  · rw [if_neg hany, List.find?_append]
    by_cases hk : k' = k
    · subst hk
      have hnone : d.find? (fun p => decide (p.1 = k')) = none := by
        rw [List.find?_eq_none]
        intro p hp
        simp only [decide_eq_true_eq]
        intro hc
        exact hany (List.any_eq_true.mpr ⟨p, hp, by simpa using hc⟩)
      rw [if_pos rfl, hnone]
      simp [List.find?_cons]
    · rw [if_neg hk]
      have hone : ([(k, v)] : List (String × BOMItem)).find?
          (fun p => decide (p.1 = k')) = none := by
        rw [List.find?_eq_none]
        intro p hp
        simp only [List.mem_singleton] at hp
        subst hp
        simpa using fun hc : k = k' => hk hc.symm
      rw [hone]
      simp

theorem bomDict_find_general :
    ∀ (items : List BOMItem) (d : List (String × BOMItem)) (pn : String),
      dictFind (items.foldl (fun d it => dictInsert d it.part_number it) d) pn =
        match lastByKey items pn with
        | some it => some it
        | none => dictFind d pn := by
  intro items
  induction items with
  | nil => intro d pn; simp [lastByKey]
  | cons it its ih =>
    intro d pn
    simp only [List.foldl_cons]
    rw [ih]
    have hlast : lastByKey (it :: its) pn =
        (lastByKey its pn).or (if it.part_number = pn then some it else none) := by
      unfold lastByKey
      simp only [List.reverse_cons, List.find?_append]
      congr 1
      by_cases hit : it.part_number = pn
      · simp [List.find?_cons, hit]
      · simp [List.find?_cons, hit]
    rw [hlast]
    cases hl : lastByKey its pn with
    | some x => rfl
    | none =>
      show dictFind (dictInsert d it.part_number it) pn =
        (match (if it.part_number = pn then some it else none : Option BOMItem) with
          | some x => some x
          | none => dictFind d pn)
      rw [dictFind_insert]
      by_cases hit : it.part_number = pn
      · rw [if_pos hit.symm, if_pos hit]
      · rw [if_neg (fun hc => hit hc.symm), if_neg hit]

theorem bomDict_find (items : List BOMItem) (pn : String) :
    dictFind (bomDict items) pn = lastByKey items pn := by
  rw [bomDict, bomDict_find_general]
  cases hl : lastByKey items pn <;> rfl

theorem dictInsert_keys (d : List (String × BOMItem)) (k : String) (v : BOMItem) :
    (dictInsert d k v).map Prod.fst =
      if d.any (fun p => decide (p.1 = k)) then d.map Prod.fst
      else d.map Prod.fst ++ [k] := by
  unfold dictInsert
  split_ifs with h
  · rw [List.map_map]
    apply List.map_congr_left
    intro p _
    by_cases hp : p.1 = k
    · simp [hp]
    · simp [hp]
  · simp

theorem foldl_keys_nodup :
    ∀ (items : List BOMItem) (d : List (String × BOMItem)),
      (d.map Prod.fst).Nodup →
      ((items.foldl (fun d it => dictInsert d it.part_number it) d).map Prod.fst).Nodup := by
  intro items
  induction items with
  | nil => intro d h; exact h
  | cons it its ih =>
    intro d h
    simp only [List.foldl_cons]
    apply ih
    rw [dictInsert_keys]
    split_ifs with hany
    · exact h
    · rw [List.nodup_append]
      refine ⟨h, List.nodup_singleton _, ?_⟩
      intro x hx hk
      simp only [List.mem_singleton] at hk
      subst hk
      obtain ⟨p, hp, hpk⟩ := List.mem_map.mp hx
      exact absurd (List.any_eq_true.mpr ⟨p, hp, by simp [hpk]⟩) hany

theorem bomDict_keys_nodup (items : List BOMItem) :
    ((bomDict items).map Prod.fst).Nodup :=
  foldl_keys_nodup items [] (by simp)

theorem find?_of_mem_nodup :
    ∀ (d : List (String × BOMItem)), (d.map Prod.fst).Nodup →
      ∀ p ∈ d, d.find? (fun q => decide (q.1 = p.1)) = some p := by
  intro d
  induction d with
  | nil => intro _ p hp; exact absurd hp (by simp)
  | cons q ps ih =>
    intro hnd p hp
    simp only [List.map_cons, List.nodup_cons] at hnd
    rcases List.mem_cons.mp hp with rfl | hp'
    · rw [List.find?_cons_of_pos _ (by simp)]
    · have hne : ¬q.1 = p.1 := by
        intro hc
        exact hnd.1 (hc ▸ List.mem_map.mpr ⟨p, hp', rfl⟩)
      rw [List.find?_cons_of_neg _ (by simpa using hne)]
      exact ih hnd.2 p hp'

theorem bomDict_mem_last {items : List BOMItem} {p : String × BOMItem}
    (hp : p ∈ bomDict items) : lastByKey items p.1 = some p.2 := by
  rw [← bomDict_find]
  unfold dictFind
  rw [find?_of_mem_nodup (bomDict items) (bomDict_keys_nodup items) p hp]
  rfl

theorem lastByKey_none_iff (items : List BOMItem) (pn : String) :
    lastByKey items pn = none ↔ occursIn items pn = false := by
  unfold lastByKey occursIn
  rw [List.find?_eq_none]
  constructor
  · intro h
    rw [← Bool.not_eq_true, List.any_eq_true]
    rintro ⟨it, hmem, hpred⟩
    exact h it (List.mem_reverse.mpr hmem) hpred
  · intro h it hmem hpred
    rw [← Bool.not_eq_true, List.any_eq_true] at h
    exact h ⟨it, List.mem_reverse.mp hmem, hpred⟩

theorem occursIn_of_lastByKey {items : List BOMItem} {pn : String} {it : BOMItem}
    (h : lastByKey items pn = some it) : occursIn items pn = true := by
  rcases hb : occursIn items pn with _ | _
  · rw [(lastByKey_none_iff items pn).mpr hb] at h
    exact Option.noConfusion h
  · rfl

theorem lastByKey_of_occurs {items : List BOMItem} {pn : String}
    (h : occursIn items pn = true) : ∃ it, lastByKey items pn = some it := by
  cases hl : lastByKey items pn with
  | none => rw [(lastByKey_none_iff items pn).mp hl] at h; exact Bool.noConfusion h
  | some it => exact ⟨it, rfl⟩

theorem bomDict_any_key (items : List BOMItem) (pn : String) :
    (bomDict items).any (fun q => decide (q.1 = pn)) = occursIn items pn := by
  cases hocc : occursIn items pn with
  | true =>
    obtain ⟨it, hit⟩ := lastByKey_of_occurs hocc
    have hbf := bomDict_find items pn
    rw [hit] at hbf
    unfold dictFind at hbf
    cases hf : (bomDict items).find? (fun p => decide (p.1 = pn)) with
    | none => rw [hf] at hbf; exact Option.noConfusion hbf
    | some p =>
      have hps := List.find?_some hf
      exact List.any_eq_true.mpr ⟨p, List.mem_of_find?_eq_some hf, hps⟩
  | false =>
    rw [← Bool.not_eq_true, List.any_eq_true]
    rintro ⟨q, hq, hpred⟩
    have hlast := bomDict_mem_last hq
    simp only [decide_eq_true_eq] at hpred
    rw [hpred] at hlast
    rw [(lastByKey_none_iff items pn).mpr hocc] at hlast
    exact Option.noConfusion hlast

theorem mem_bomDict_of_last {items : List BOMItem} {pn : String} {it : BOMItem}
    (h : lastByKey items pn = some it) : (pn, it) ∈ bomDict items := by
  rw [← bomDict_find] at h
  unfold dictFind at h
  cases hf : (bomDict items).find? (fun p => decide (p.1 = pn)) with
  | none => rw [hf] at h; exact Option.noConfusion h
  | some p =>
    rw [hf] at h
    have hsnd : p.2 = it := Option.some.inj h
    have hmem := List.mem_of_find?_eq_some hf
    have hps := List.find?_some hf
    simp only [decide_eq_true_eq] at hps
    have hpq : p = (pn, it) := by
      cases p with
      | mk a b =>
        simp only at hps hsnd
        rw [hps, hsnd]
    rw [← hpq]
    exact hmem

theorem commonPairs_mem {bom1 bom2 : List BOMItem} {q : BOMItem × BOMItem} :
    q ∈ commonPairs bom1 bom2 ↔
      ∃ k i1 i2, lastByKey bom1 k = some i1 ∧ lastByKey bom2 k = some i2
        ∧ q = (i1, i2) := by
  unfold commonPairs
  rw [List.mem_filterMap]
  constructor
  · rintro ⟨p, hp, hq⟩
    cases hf : dictFind (bomDict bom2) p.1 with
    | none => rw [hf] at hq; exact Option.noConfusion hq
    | some i2 =>
      rw [hf] at hq
      refine ⟨p.1, p.2, i2, bomDict_mem_last hp, ?_, (Option.some.inj hq).symm⟩
      rw [← bomDict_find]
      exact hf
  · rintro ⟨k, i1, i2, h1, h2, rfl⟩
    refine ⟨(k, i1), mem_bomDict_of_last h1, ?_⟩
    show (dictFind (bomDict bom2) k).map _ = _
    rw [bomDict_find, h2]
    rfl

/-- Claim C5: `_calculate_differences` partitions the part numbers — removed
are the items whose part number occurs only in `bom1`, added only in `bom2`,
and every part number common to both is classified modified exactly when
quantity, description or unit differs (exact comparison; other fields are
ignored) and unchanged otherwise — always using the last item carrying a
duplicated part number within one BOM (last-write-wins dict build). -/
theorem claim_C5 (bom1 bom2 : List BOMItem) (pn : String) :
    (occursIn bom1 pn = true → occursIn bom2 pn = false →
      ∀ it, lastByKey bom1 pn = some it →
        it ∈ (calculateDifferences bom1 bom2).removed_items)
    ∧ (∀ it ∈ (calculateDifferences bom1 bom2).removed_items,
        ∃ k, occursIn bom1 k = true ∧ occursIn bom2 k = false
          ∧ lastByKey bom1 k = some it)
    ∧ (occursIn bom2 pn = true → occursIn bom1 pn = false →
      ∀ it, lastByKey bom2 pn = some it →
        it ∈ (calculateDifferences bom1 bom2).added_items)
    ∧ (∀ it ∈ (calculateDifferences bom1 bom2).added_items,
        ∃ k, occursIn bom2 k = true ∧ occursIn bom1 k = false
          ∧ lastByKey bom2 k = some it)
    ∧ (occursIn bom1 pn = true → occursIn bom2 pn = true →
        ∀ i1 i2, lastByKey bom1 pn = some i1 → lastByKey bom2 pn = some i2 →
          (itemDiffers i1 i2 = true →
            (i1, i2) ∈ (calculateDifferences bom1 bom2).modified_items)
          ∧ (itemDiffers i1 i2 = false →
            i1 ∈ (calculateDifferences bom1 bom2).unchanged_items))
    ∧ (∀ q ∈ (calculateDifferences bom1 bom2).modified_items,
        ∃ k i1 i2, occursIn bom1 k = true ∧ occursIn bom2 k = true
          ∧ lastByKey bom1 k = some i1 ∧ lastByKey bom2 k = some i2
          ∧ q = (i1, i2) ∧ itemDiffers i1 i2 = true)
    ∧ (∀ it ∈ (calculateDifferences bom1 bom2).unchanged_items,
        ∃ k i1 i2, occursIn bom1 k = true ∧ occursIn bom2 k = true
          ∧ lastByKey bom1 k = some i1 ∧ lastByKey bom2 k = some i2
          ∧ it = i1 ∧ itemDiffers i1 i2 = false) := by
  refine ⟨?_, ?_, ?_, ?_, ?_, ?_, ?_⟩
  · intro h1 h2 it hit
    show it ∈ ((bomDict bom1).filter _).map Prod.snd
    refine List.mem_map.mpr ⟨(pn, it), List.mem_filter.mpr ⟨mem_bomDict_of_last hit, ?_⟩, rfl⟩
    show (!((bomDict bom2).any (fun q => decide (q.1 = (pn, it).1)))) = true
    rw [show ((pn, it) : String × BOMItem).1 = pn from rfl]
    rw [bomDict_any_key bom2 pn, h2]
    rfl
  · intro it hit
    obtain ⟨p, hpf, hps⟩ := List.mem_map.mp hit
    obtain ⟨hpmem, hpred⟩ := List.mem_filter.mp hpf
    have hlast := bomDict_mem_last hpmem
    refine ⟨p.1, occursIn_of_lastByKey hlast, ?_, by rw [hlast, hps]⟩
    have : ((bomDict bom2).any (fun q => decide (q.1 = p.1))) = false := by
      simpa using hpred
    rw [bomDict_any_key bom2 p.1] at this
    exact this
  · intro h1 h2 it hit
    show it ∈ ((bomDict bom2).filter _).map Prod.snd
    refine List.mem_map.mpr ⟨(pn, it), List.mem_filter.mpr ⟨mem_bomDict_of_last hit, ?_⟩, rfl⟩
    show (!((bomDict bom1).any (fun q => decide (q.1 = (pn, it).1)))) = true
    rw [show ((pn, it) : String × BOMItem).1 = pn from rfl]
    rw [bomDict_any_key bom1 pn, h2]
    rfl
  · intro it hit
    obtain ⟨p, hpf, hps⟩ := List.mem_map.mp hit
    obtain ⟨hpmem, hpred⟩ := List.mem_filter.mp hpf
    have hlast := bomDict_mem_last hpmem
    refine ⟨p.1, occursIn_of_lastByKey hlast, ?_, by rw [hlast, hps]⟩
    have : ((bomDict bom1).any (fun q => decide (q.1 = p.1))) = false := by
      simpa using hpred
    rw [bomDict_any_key bom1 p.1] at this
    exact this
  · intro h1 h2 i1 i2 hl1 hl2
    have hcp : (i1, i2) ∈ commonPairs bom1 bom2 :=
      commonPairs_mem.mpr ⟨pn, i1, i2, hl1, hl2, rfl⟩
    constructor
    · intro hd
      show (i1, i2) ∈ (commonPairs bom1 bom2).filter _
      exact List.mem_filter.mpr ⟨hcp, by simpa using hd⟩
    · intro hd
      show i1 ∈ ((commonPairs bom1 bom2).filter _).map Prod.fst
      exact List.mem_map.mpr ⟨(i1, i2), List.mem_filter.mpr ⟨hcp, by simp [hd]⟩, rfl⟩
  · intro q hq
    obtain ⟨hcp, hd⟩ := List.mem_filter.mp hq
    obtain ⟨k, i1, i2, hl1, hl2, hq12⟩ := commonPairs_mem.mp hcp
    refine ⟨k, i1, i2, occursIn_of_lastByKey hl1, occursIn_of_lastByKey hl2,
      hl1, hl2, hq12, ?_⟩
    rw [hq12] at hd
    simpa using hd
  · intro it hit
    obtain ⟨q, hqf, hqfst⟩ := List.mem_map.mp hit
    obtain ⟨hcp, hd⟩ := List.mem_filter.mp hqf
    obtain ⟨k, i1, i2, hl1, hl2, hq12⟩ := commonPairs_mem.mp hcp
    refine ⟨k, i1, i2, occursIn_of_lastByKey hl1, occursIn_of_lastByKey hl2,
      hl1, hl2, ?_, ?_⟩
    · rw [← hqfst, hq12]
    · rw [hq12] at hd
      simpa using hd

/-- Witness for `claim_C5` at concrete inputs. -/
theorem claim_C5_witness :
    itemP1 ∈ (calculateDifferences [itemP1, itemP2] [itemP2, itemP3]).removed_items
    ∧ itemP3 ∈ (calculateDifferences [itemP1, itemP2] [itemP2, itemP3]).added_items
    ∧ itemP2 ∈ (calculateDifferences [itemP1, itemP2] [itemP2, itemP3]).unchanged_items :=
  ⟨(claim_C5 [itemP1, itemP2] [itemP2, itemP3] "P1").1 (by decide) (by decide)
      itemP1 (by decide),
   (claim_C5 [itemP1, itemP2] [itemP2, itemP3] "P3").2.2.1 (by decide) (by decide)
      itemP3 (by decide),
   ((claim_C5 [itemP1, itemP2] [itemP2, itemP3] "P2").2.2.2.2.1 (by decide) (by decide)
      itemP2 itemP2 (by decide) (by decide)).2 (by decide)⟩

/-- Claim C10: `__post_init__` recomputes the four partitions only when the
supplied `added_items`, `removed_items` and `modified_items` are all empty; if
any of those three is non-empty, nothing is recomputed and all four supplied
partitions (including `unchanged_items`, which the guard never inspects) are
kept exactly as passed in. -/
theorem claim_C10 (c : BOMComparison) :
    ((c.added_items ≠ [] ∨ c.removed_items ≠ [] ∨ c.modified_items ≠ []) →
      postInit c = c)
    ∧ (c.added_items = [] → c.removed_items = [] → c.modified_items = [] →
        postInit c = { c with
          added_items := (calculateDifferences c.bom1 c.bom2).added_items
          removed_items := (calculateDifferences c.bom1 c.bom2).removed_items
          modified_items := (calculateDifferences c.bom1 c.bom2).modified_items
          unchanged_items := (calculateDifferences c.bom1 c.bom2).unchanged_items }) := by
  constructor
  · intro h
    unfold postInit
    rw [if_neg (by tauto)]
  · intro h1 h2 h3
    unfold postInit
    rw [if_pos (And.intro h1 (And.intro h2 h3))]

/-- Witness for `claim_C10` at concrete inputs. -/
theorem claim_C10_witness :
    postInit cmpKeepSample = cmpKeepSample
    ∧ postInit cmpRecomputeSample = { cmpRecomputeSample with
        added_items := (calculateDifferences [itemP1] [itemP2]).added_items
        removed_items := (calculateDifferences [itemP1] [itemP2]).removed_items
        modified_items := (calculateDifferences [itemP1] [itemP2]).modified_items
        unchanged_items := (calculateDifferences [itemP1] [itemP2]).unchanged_items } :=
  ⟨(claim_C10 cmpKeepSample).1 (Or.inl (by decide)),
   (claim_C10 cmpRecomputeSample).2 rfl rfl rfl⟩

end BomGen
